import Mathlib

/-!
Shallow embedding of the Verilator scheduling core (`src/V3Sched.cpp`) and
proofs about it.  Each definition mirrors one C++ entity of the source file;
comments cite the source function it embeds.  AST node identity (pointers in
the C++ IR) is modelled by explicit `id : Nat` fields; generated variables
are identified by their generated (stable) names, exactly as produced by the
source (`__V<name>Triggered`, `__V<tag>IterCount`, ...).
-/

namespace VSched

/-- `VEdgeType`: edge kinds of an `AstSenItem` (the subset the scheduler
switches over in `SenExprBuilder::createTerm`; `ET_TRUE` stands for the
default branch target `true-level`, used only for synthesized trigger
sensitivities). -/
inductive VEdgeType where
  | ET_ILLEGAL
  | ET_CHANGED
  | ET_HYBRID
  | ET_BOTHEDGE
  | ET_POSEDGE
  | ET_NEGEDGE
  | ET_EVENT
  | ET_TRUE
deriving DecidableEq, Repr

/-- A sensed expression (the `sensp()` of an `AstSenItem`).  Structural
equality of the C++ IR (the `VNRef<AstNode>` hash keys of
`SenExprBuilder::m_prev`) is Lean equality on this type.  `varref` is a
simple `AstVarRef` (carrying the dotless scope name and variable name used
to build the shadow name); `complex` is any other expression, identified by
its structure id; `trigAt` is the synthetic `vec.at(index)` method call used
in synthesized trigger sensitivities. -/
inductive SenExpr where
  | varref (scopeName : String) (varName : String)
  | complex (id : Nat)
  | trigAt (vec : String) (index : Nat)
deriving DecidableEq, Repr

/-- Expressions built by the scheduler (`AstNodeMath` nodes it constructs).
`senExpr e` is a clone of the sensed expression `e` (the `rdCurr()` /
`currp()` clones); `nullp` models a null expression child (C++ `nullptr`);
`isFired`/`trigAt`/`anyTrig` model the `AstCMethodHard` calls with those
method names. -/
inductive Expr where
  | varref (name : String)
  | const (n : Nat)
  | senExpr (e : SenExpr)
  | nullp
  | neq (a b : Expr)
  | xorOp (a b : Expr)
  | andOp (a b : Expr)
  | notOp (a : Expr)
  | orOp (a b : Expr)
  | eq (a b : Expr)
  | gt (a b : Expr)
  | add (a b : Expr)
  | sel (a : Expr) (lsb width : Nat)
  | isFired (e : SenExpr)
  | trigAt (vec : String) (index : Nat)
  | anyTrig (vec : String)
deriving DecidableEq, Repr

/-- Statements built by the scheduler.  `cMethodStmt` models a statement
`AstCMethodHard` (methods `andNot`, `set`, `clear` on trigger vectors, with
variable-name arguments); `clearFired`/`enqueueClear` model the event
clearing calls; `fatalBlock` models the `AstTextBlock` emitted on
convergence failure (guarded dump call, then `VL_FATAL_MT(file, line, "",
"<msg>")`); `debugDumpCall` models the `#ifdef VL_DEBUG` guarded call of the
dump function appended to each trigger compute function; `dbgPrint` models
the per-trigger `VL_DBG_MSGF` text of the dump function (region name,
trigger index, pretty-printed sensitivity when present); `procedureS` models
an `AstNodeProcedure` wrapper around a statement list. -/
inductive Stmt where
  | assign (lhs rhs : Expr)
  | ifS (cond : Expr) (thens : List Stmt) (elses : List Stmt)
  | whileS (cond : Expr) (body : List Stmt)
  | ccall (fn : String)
  | cMethodStmt (recv : String) (meth : String) (args : List String)
  | clearFired (e : SenExpr)
  | enqueueClear (e : SenExpr)
  | textStmt (s : String)
  | fatalBlock (dumpFn : String) (file : String) (line : Nat) (msg : String)
  | debugDumpCall (dumpFn : String)
  | dbgPrint (region : String) (index : Nat) (senTreeId : Option Nat)
  | procedureS (body : List Stmt)

/-- Node count of an expression (`AstNode::nodeCount()`: each node counts 1
plus its children). -/
def Expr.nodeCount : Expr → Nat
  | .varref _ => 1
  | .const _ => 1
  | .senExpr _ => 1
  | .nullp => 0
  | .neq a b => 1 + a.nodeCount + b.nodeCount
  | .xorOp a b => 1 + a.nodeCount + b.nodeCount
  | .andOp a b => 1 + a.nodeCount + b.nodeCount
  | .notOp a => 1 + a.nodeCount
  | .orOp a b => 1 + a.nodeCount + b.nodeCount
  | .eq a b => 1 + a.nodeCount + b.nodeCount
  | .gt a b => 1 + a.nodeCount + b.nodeCount
  | .add a b => 1 + a.nodeCount + b.nodeCount
  | .sel a _ _ => 1 + a.nodeCount
  | .isFired _ => 2
  | .trigAt _ _ => 3
  | .anyTrig _ => 2

mutual

/-- Node count of a statement tree (`AstNode::nodeCount()`). -/
def Stmt.nodeCount : Stmt → Nat
  | .assign l r => 1 + l.nodeCount + r.nodeCount
  | .ifS c t e => 1 + c.nodeCount + Stmt.nodeCountList t + Stmt.nodeCountList e
  | .whileS c b => 1 + c.nodeCount + Stmt.nodeCountList b
  | .ccall _ => 1
  | .cMethodStmt _ _ args => 1 + args.length
  | .clearFired _ => 2
  | .enqueueClear _ => 2
  | .textStmt _ => 1
  | .fatalBlock _ _ _ _ => 2
  | .debugDumpCall _ => 2
  | .dbgPrint _ _ _ => 1
  | .procedureS b => 1 + Stmt.nodeCountList b

/-- Node count of a statement list. -/
def Stmt.nodeCountList : List Stmt → Nat
  | [] => 0
  | s :: ss => s.nodeCount + Stmt.nodeCountList ss

end

/-- `AstSenItem`: one sensitivity term. -/
structure SenItem where
  edge : VEdgeType
  sens : SenExpr
deriving DecidableEq, Repr

/-- `AstSenTree`: a sensitivity list with at least one `AstSenItem`
(`first` is `sensesp()`, `rest` the `nextp()` chain) and the classification
predicates the scheduler queries (`hasStatic()` etc., computed outside this
file's source from the item edge types, hence modelled as fields).  `id`
models the node's identity (its address), used as key of the
`AstSenTree*`-keyed maps. -/
structure SenTree where
  id : Nat
  first : SenItem
  rest : List SenItem
  hasStatic : Bool := false
  hasInitial : Bool := false
  hasFinal : Bool := false
  hasCombo : Bool := false
  hasClocked : Bool := false
  hasHybrid : Bool := false
deriving DecidableEq, Repr

/-- All items of a SenTree, in list order. -/
def SenTree.itemsAll (t : SenTree) : List SenItem := t.first :: t.rest

/-- A generated `AstCFunc` (name, `slow()` flag, statement list). -/
structure CFunc where
  name : String
  slow : Bool
  stmts : List Stmt

/-- `AstCFunc::nodeCount()`: the function node plus its statements. -/
def CFunc.nodeCount (f : CFunc) : Nat := 1 + Stmt.nodeCountList f.stmts

/-- An `AstActive` block: a sensitivity list plus body statements.  `id`
models node identity. -/
structure ActiveBlock where
  id : Nat
  senTree : SenTree
  stmts : List Stmt

/-- An `AstScope` with its active blocks (`name` is `nameDotless()`). -/
structure Scope where
  id : Nat
  name : String
  blocks : List ActiveBlock

/-- One entry of a `LogicByScope` (a `(AstScope*, AstActive*)` pair). -/
structure ScopedLogic where
  scopeId : Nat
  scopeName : String
  activep : ActiveBlock

/-- `LogicByScope`: ordered list of (scope, active block) pairs. -/
abbrev LogicByScope := List ScopedLogic

/-- `LogicClasses` (five buckets from the classifier; `m_hybrid` filled by
`breakCycles`). -/
structure LogicClasses where
  m_static : LogicByScope := []
  m_initial : LogicByScope := []
  m_final : LogicByScope := []
  m_comb : LogicByScope := []
  m_clocked : LogicByScope := []
  m_hybrid : LogicByScope := []

/-- `LogicRegions` (produced by the external `partition` pass). -/
structure LogicRegions where
  m_pre : LogicByScope := []
  m_act : LogicByScope := []
  m_nba : LogicByScope := []

/-- `LogicReplicas` (produced by the external `replicateLogic` pass). -/
structure LogicReplicas where
  m_ico : LogicByScope := []
  m_act : LogicByScope := []
  m_nba : LogicByScope := []

/-- The subset of `v3Global.opt` the scheduler reads. -/
structure Config where
  hasEvents : Bool := false
  xInitialEdge : Bool := false
  outputSplitCFuncs : Nat := 0
  convergeLimit : Nat := 100
  systemC : Bool := false
  mtasks : Bool := false

/-- `setVar(vscp, val)`: build the assignment `vscp := val`. -/
def setVarS (v : String) (n : Nat) : Stmt := .assign (.varref v) (.const n)

/-! ### SenExprBuilder (`class SenExprBuilder` of the source)

The builder's mutable state: the statements it appended to the
initialization function `m_initp` (`initStmts`), the `m_prev` map from
sensed expression to its 'previous value' shadow variable (an association
list keyed by structural equality, newest first), the per-round dedup set
`m_hasUpdate`, the pending update statements `m_updates`, and the
`V3UniqueNames` counter. -/

structure SEB where
  initStmts : List Stmt := []
  prev : List (SenExpr × String) := []
  hasUpdate : List SenExpr := []
  updates : List Stmt := []
  uniqueCnt : Nat := 0

/-- Lookup in the `m_prev` association list (`m_prev.find(*currp)`). -/
def lookupPrev : List (SenExpr × String) → SenExpr → Option String
  | [], _ => none
  | (k, v) :: rest, e => if k = e then some v else lookupPrev rest e

/-- The shadow variable name chosen by `SenExprBuilder::getPrev`: the
stable scoped name for a simple `AstVarRef`, otherwise a fresh unique name
from `m_uniqueNames` (prefix `__Vtrigprev__expression`); returns the name
and the updated unique counter. -/
def prevName (cnt : Nat) : SenExpr → String × Nat
  | .varref sc v => ("__Vtrigrprev__" ++ sc ++ "__" ++ v, cnt)
  | _ => ("__Vtrigprev__expression_" ++ toString cnt, cnt + 1)

/-- `SenExprBuilder::getPrev(currp)`: create the 'previous value' shadow
variable on first sight of the expression (appending its initializer
`shadow := expr` to the initialization function), then append the round's
update `shadow := expr` unless one was already recorded this round. -/
def SEB.getPrev (st : SEB) (currp : SenExpr) : String × SEB :=
  let (pname, st) : String × SEB :=
    match lookupPrev st.prev currp with
    | some n => (n, st)
    | none =>
      let (name, cnt) := prevName st.uniqueCnt currp
      (name,
        { st with
          prev := (currp, name) :: st.prev
          uniqueCnt := cnt
          initStmts := st.initStmts ++ [.assign (.varref name) (.senExpr currp)] })
  if currp ∈ st.hasUpdate then (pname, st)
  else
    (pname,
      { st with
        hasUpdate := currp :: st.hasUpdate
        updates := st.updates ++ [.assign (.varref pname) (.senExpr currp)] })

/-- `SenExprBuilder::createTerm(senItemp)`: translate one sensitivity item
to its trigger expression and first-evaluation flag.  The outer `Option` is
`none` on a fatal internal assertion (`UASSERT` on events without
`--timing`/events support, and `v3fatalSrc` on an unknown edge type, i.e.
any edge outside the switch, modelled by `ET_TRUE`). -/
def SEB.createTerm (cfg : Config) (st : SEB) (senItemp : SenItem) :
    Option ((Option Expr × Bool) × SEB) :=
  let senp := senItemp.sens
  match senItemp.edge with
  | .ET_ILLEGAL => some ((none, false), st)
  | .ET_CHANGED =>
    let (p, st) := st.getPrev senp
    some ((some (.neq (.senExpr senp) (.varref p)), true), st)
  | .ET_HYBRID =>
    let (p, st) := st.getPrev senp
    some ((some (.neq (.senExpr senp) (.varref p)), true), st)
  | .ET_BOTHEDGE =>
    let (p, st) := st.getPrev senp
    some ((some (.sel (.xorOp (.senExpr senp) (.varref p)) 0 1), false), st)
  | .ET_POSEDGE =>
    let (p, st) := st.getPrev senp
    some ((some (.sel (.andOp (.senExpr senp) (.notOp (.varref p))) 0 1), false), st)
  | .ET_NEGEDGE =>
    let (p, st) := st.getPrev senp
    some ((some (.sel (.andOp (.notOp (.senExpr senp)) (.varref p)) 0 1), false), st)
  | .ET_EVENT =>
    if cfg.hasEvents then
      let st :=
        { st with
          updates := st.updates ++
            [.ifS (.isFired senp) [.clearFired senp, .enqueueClear senp] []] }
      some ((some (.isFired senp), false), st)
    else none
  | .ET_TRUE => none

/-- The fold body of `SenExprBuilder::build`: accumulate the OR of the
non-null per-item trigger expressions and the OR of their first-evaluation
flags. -/
def SEB.buildGo (cfg : Config) :
    List SenItem → SEB → Option Expr → Bool → Option ((Option Expr × Bool) × SEB)
  | [], st, resultp, fired => some ((resultp, fired), st)
  | i :: rest, st, resultp, fired =>
    match SEB.createTerm cfg st i with
    | none => none
    | some ((termo, f), st) =>
      match termo with
      | none => SEB.buildGo cfg rest st resultp fired
      | some t =>
        SEB.buildGo cfg rest st
          (some (match resultp with | none => t | some r => .orOp r t)) (fired || f)

/-- `SenExprBuilder::build(senTreep)`: the trigger expression of a whole
sensitivity list and the flag requesting firing on the first evaluation. -/
def SEB.build (cfg : Config) (st : SEB) (senTreep : SenTree) :
    Option ((Option Expr × Bool) × SEB) :=
  SEB.buildGo cfg senTreep.itemsAll st none false

/-- `SenExprBuilder::getAndClearUpdates()`: return the pending updates and
clear both the accumulator `m_updates` and the per-round dedup set
`m_hasUpdate`. -/
def SEB.getAndClearUpdates (st : SEB) : List Stmt × SEB :=
  (st.updates, { st with hasUpdate := [], updates := [] })

/-! ### TriggerKit factory (`createTriggers` of the source) -/

/-- The synthetic `AstSenTree` `@([true] vec.at(index))` built both inside
the `createTriggers` loop and by `TriggerKit::createTriggerSenTree`. -/
def trigSenTree (vec : String) (index : Nat) : SenTree :=
  { id := 0, first := { edge := .ET_TRUE, sens := .trigAt vec index }, rest := [] }

/-- Insertion into the `AstSenTree*`-keyed `std::unordered_map` (keys are
the tree ids): `map[key] = value` overwrites an existing entry, otherwise
appends a new one. -/
def insertKV (m : List (Nat × SenTree)) (k : Nat) (v : SenTree) : List (Nat × SenTree) :=
  match m with
  | [] => [(k, v)]
  | (k', v') :: rest => if k' = k then (k, v) :: rest else (k', v') :: insertKV rest k v

/-- Lookup in such a map. -/
def lookupKV : List (Nat × SenTree) → Nat → Option SenTree
  | [], _ => none
  | (k', v') :: rest, k => if k' = k then some v' else lookupKV rest k

/-- A null-or-expression child of an `AstAssign` (the rhs passed to
`new AstAssign{..., pair.first}` may be the null term). -/
def exprOrNull : Option Expr → Expr
  | none => .nullp
  | some e => e

/-- `struct TriggerKit`: the trigger vector variable (by name and dtype
width), the compute function, the dump function, the SenTree map, and the
temp variables created along the way. -/
structure TriggerKit where
  vscp : String
  width : Nat
  funcName : String
  funcSlow : Bool
  funcStmts : List Stmt
  dumpName : String
  dumpStmts : List Stmt
  map : List (Nat × SenTree)
  newVars : List (String × Nat)

/-- The per-SenTree loop of `createTriggers` (`for senTreep : senTreeps`),
at current trigger number `k`: checks the `UASSERT` (clocked or hybrid),
records the map entry, emits the trigger-bit assignment from
`senExprBuilder.build`, accumulates the initialization-time trigger
assignments (`pair.second || xInitialEdge`), and the per-trigger debug dump
statement.  Returns `(map, computeStmts, initialTrigs, dumpStmts, builder)`. -/
def ctGo (cfg : Config) (vscp rname : String) :
    List SenTree → SEB → Nat → List (Nat × SenTree) →
    Option (List (Nat × SenTree) × List Stmt × List Stmt × List Stmt × SEB)
  | [], st, _, map => some (map, [], [], [], st)
  | t :: ts, st, k, map =>
    if t.hasClocked || t.hasHybrid then
      let map' := insertKV map t.id (trigSenTree vscp k)
      match SEB.build cfg st t with
      | none => none
      | some ((e, fired), st') =>
        match ctGo cfg vscp rname ts st' (k + 1) map' with
        | none => none
        | some (mapF, assigns, inits, dumps, stF) =>
          some (mapF,
            .assign (.trigAt vscp k) (exprOrNull e) :: assigns,
            (if fired || cfg.xInitialEdge then [Stmt.assign (.trigAt vscp k) (.const 1)] else [])
              ++ inits,
            Stmt.ifS (.trigAt vscp k) [.dbgPrint rname k (some t.id)] [] :: dumps,
            stF)
    else none

/-- The dump function's leading statement: print "No triggers active" when
no trigger is pending. -/
def noTrigPrint (vscp : String) : Stmt :=
  .ifS (.anyTrig vscp) [] [.textStmt "VL_DBG_MSGF No triggers active"]

/-- `createTriggers(netlistp, senExprBuilder, senTreeps, name, extra, slow)`:
create the `__V<name>Triggered` TRIGGERVEC variable of width
`|senTreeps| + extra`, the compute function `_eval_triggers__<name>` (one
trigger-bit assignment per input SenTree at bit `extra + i`, then the
pending shadow updates, then the `__V<name>DidInit`-guarded
initialization-time trigger block when needed, then the guarded debug dump
call), the dump function `_dump_triggers__<name>`, and the map from each
input SenTree to its synthetic trigger SenTree.  `none` models a fatal
internal assertion. -/
def createTriggers (cfg : Config) (st : SEB) (senTreeps : List SenTree)
    (name : String) (extra : Nat) (slow : Bool) : Option (TriggerKit × SEB) :=
  let nTriggers := senTreeps.length + extra
  let vscp := "__V" ++ name ++ "Triggered"
  match ctGo cfg vscp name senTreeps st extra [] with
  | none => none
  | some (map, assigns, initialTrigsp, dumpTrees, st') =>
    let (updates, st'') := st'.getAndClearUpdates
    let didInit := "__V" ++ name ++ "DidInit"
    let didInitStmts : List Stmt :=
      if initialTrigsp.isEmpty then []
      else [Stmt.ifS (.notOp (.varref didInit)) (setVarS didInit 1 :: initialTrigsp) []]
    let didInitVars : List (String × Nat) :=
      if initialTrigsp.isEmpty then [] else [(didInit, 1)]
    some
      ({ vscp := vscp
         width := nTriggers
         funcName := "_eval_triggers__" ++ name
         funcSlow := slow
         funcStmts := assigns ++ updates ++ didInitStmts
           ++ [.debugDumpCall ("_dump_triggers__" ++ name)]
         dumpName := "_dump_triggers__" ++ name
         dumpStmts := noTrigPrint vscp
           :: ((List.range extra).map fun i =>
                 Stmt.ifS (.trigAt vscp i) [.dbgPrint name i none] [])
           ++ dumpTrees
         map := map
         newVars := (vscp, nTriggers) :: didInitVars }, st'')

/-- `TriggerKit::addFirstIterationTriggerAssignment(counterp, index)`:
insert `vec.at(0) := (counter == 0)` at the head of the compute function
(the source hardcodes constant `0` as the `at` argument; both call sites
pass `index = 0`). -/
def TriggerKit.addFirstIterationTriggerAssignment (kit : TriggerKit) (counterp : String) :
    TriggerKit :=
  { kit with
    funcStmts :=
      .assign (.trigAt kit.vscp 0) (.eq (.varref counterp) (.const 0)) :: kit.funcStmts }

/-- `TriggerKit::addDpiExportTriggerAssignment(dpiExportTriggerVscp, index)`:
insert `vec.at(index) := dpiVar; dpiVar := false` at the head of the
compute function. -/
def TriggerKit.addDpiExportTriggerAssignment (kit : TriggerKit) (dpiVar : String)
    (index : Nat) : TriggerKit :=
  { kit with
    funcStmts :=
      .assign (.trigAt kit.vscp index) (.varref dpiVar)
        :: .assign (.varref dpiVar) (.const 0)
        :: kit.funcStmts }

/-- The compute function of a kit as a `CFunc` (`_eval_triggers__<name>`,
built by `makeSubFunction`). -/
def TriggerKit.computeFunc (kit : TriggerKit) : CFunc :=
  { name := kit.funcName, slow := kit.funcSlow, stmts := kit.funcStmts }

/-- The dump function of a kit as a `CFunc` (`_dump_triggers__<name>`). -/
def TriggerKit.dumpFunc (kit : TriggerKit) : CFunc :=
  { name := kit.dumpName, slow := kit.funcSlow, stmts := kit.dumpStmts }

/-! ### Eval loop construction (`buildLoop`, `makeEvalLoop` of the source) -/

/-- `buildLoop(netlistp, name, build)`: create the `__V<name>Continue`
condition variable, initialize it to true, loop while it is set, clear it
at the head of each iteration, then run the statements the `build` callback
adds to the loop body (which receives the condition variable). -/
def buildLoop (name : String) (build : String → List Stmt) : List Stmt :=
  let condv := "__V" ++ name ++ "Continue"
  [setVarS condv 1, .whileS (.varref condv) (setVarS condv 0 :: build condv)]

/-- Result of `makeEvalLoop`: the iteration counter variable (returned so
the orchestrator can wire first-iteration triggers) and the loop IR, plus
the temp variables created (`__V<tag>IterCount` of width 32 and the
`__V<tag>Continue` flag of width 1). -/
structure EvalLoop where
  counter : String
  stmts : List Stmt
  vars : List (String × Nat)

/-- `makeEvalLoop(netlistp, tag, name, trigVscp, trigDumpp, computeTriggers,
makeBody)`: initialize the 32-bit `__V<tag>IterCount` to 0 and build the
loop; per iteration: compute the triggers, and if `trigVscp.any()`: set the
continuation flag, die with `"<name> region did not converge."` (citing the
top module's source file and line, after a debug-guarded dump call) when
the counter exceeds the converge limit, increment the counter, and run the
body. -/
def makeEvalLoop (cfg : Config) (topFile : String) (topLine : Nat) (tag name : String)
    (trigVscp : String) (trigDumpName : String)
    (computeTriggers : List Stmt) (body : List Stmt) : EvalLoop :=
  let counterp := "__V" ++ tag ++ "IterCount"
  { counter := counterp
    stmts := setVarS counterp 0 ::
      buildLoop tag fun continuep =>
        computeTriggers ++
          [Stmt.ifS (.anyTrig trigVscp)
            ([ setVarS continuep 1,
               Stmt.ifS (.gt (.varref counterp) (.const cfg.convergeLimit))
                 [.fatalBlock trigDumpName topFile topLine
                    (name ++ " region did not converge.")] [],
               Stmt.assign (.varref counterp) (.add (.varref counterp) (.const 1)) ]
              ++ body)
            []]
    vars := [(counterp, 32), ("__V" ++ tag ++ "Continue", 1)] }

/-! ### `createEval` (the `_eval` assembler of the source) -/

/-- Retarget a trigger-vector reference: the `AstVarRef` rewrite applied to
the cloned nba dump function (`refp->varScopep() == actTrig.m_vscp` is
replaced by a reference to the nba vector). -/
def retargetExpr (old new : String) : Expr → Expr
  | .varref v => .varref (if v = old then new else v)
  | .trigAt v i => .trigAt (if v = old then new else v) i
  | .anyTrig v => .anyTrig (if v = old then new else v)
  | .neq a b => .neq (retargetExpr old new a) (retargetExpr old new b)
  | .xorOp a b => .xorOp (retargetExpr old new a) (retargetExpr old new b)
  | .andOp a b => .andOp (retargetExpr old new a) (retargetExpr old new b)
  | .notOp a => .notOp (retargetExpr old new a)
  | .orOp a b => .orOp (retargetExpr old new a) (retargetExpr old new b)
  | .eq a b => .eq (retargetExpr old new a) (retargetExpr old new b)
  | .gt a b => .gt (retargetExpr old new a) (retargetExpr old new b)
  | .add a b => .add (retargetExpr old new a) (retargetExpr old new b)
  | .sel a l w => .sel (retargetExpr old new a) l w
  | e => e

mutual

/-- Statement-level retargeting of the nba dump clone, combined with the
`VString::replaceWord(text, "act", "nba")` rewrite of the debug text (the
region word of the structured prints is exactly "act"; the only plain
`AstText` of a dump function, the "No triggers active" print, contains no
standalone word "act"). -/
def retargetDumpStmt (old new : String) : Stmt → Stmt
  | .assign l r => .assign (retargetExpr old new l) (retargetExpr old new r)
  | .ifS c t e =>
    .ifS (retargetExpr old new c) (retargetDumpStmts old new t) (retargetDumpStmts old new e)
  | .whileS c b => .whileS (retargetExpr old new c) (retargetDumpStmts old new b)
  | .dbgPrint region i t => .dbgPrint (if region = "act" then "nba" else region) i t
  | s => s

/-- List version of `retargetDumpStmt`. -/
def retargetDumpStmts (old new : String) : List Stmt → List Stmt
  | [] => []
  | s :: ss => retargetDumpStmt old new s :: retargetDumpStmts old new ss

end

/-- `createEval(netlistp, icoLoopp, actTrig, preTrigsp, nbaTrigsp, actFuncp,
nbaFuncp)`: build `_eval`.  Start with the ico loop if any; clone the act
dump function into `_dump_triggers__nba` (retargeting the trigger vector
and the "act" debug word); build the Active eval loop whose per-iteration
body computes `preTrig := actTrig andNot nbaTrig`, latches
`nbaTrig := nbaTrig set actTrig`, then calls the act body function; wrap
that loop as the trigger computation (after clearing the nba triggers) of
the NBA eval loop whose body calls the nba body function.  Returns the
`_eval` function, the nba dump function, and the loop temp variables. -/
def createEval (cfg : Config) (topFile : String) (topLine : Nat)
    (icoLoopp : Option (List Stmt)) (actTrig : TriggerKit)
    (preTrigsp nbaTrigsp : String) (actFuncName nbaFuncName : String) :
    CFunc × CFunc × List (String × Nat) :=
  let nbaDump : CFunc :=
    { name := "_dump_triggers__nba", slow := actTrig.funcSlow
      stmts := retargetDumpStmts actTrig.vscp nbaTrigsp actTrig.dumpStmts }
  let activeEvalLoop :=
    makeEvalLoop cfg topFile topLine "act" "Active" actTrig.vscp actTrig.dumpName
      [.ccall actTrig.funcName]
      [ .cMethodStmt preTrigsp "andNot" [actTrig.vscp, nbaTrigsp],
        .cMethodStmt nbaTrigsp "set" [actTrig.vscp],
        .ccall actFuncName ]
  let nbaEvalLoop :=
    makeEvalLoop cfg topFile topLine "nba" "NBA" nbaTrigsp "_dump_triggers__nba"
      (.cMethodStmt nbaTrigsp "clear" [] :: activeEvalLoop.stmts)
      [.ccall nbaFuncName]
  ({ name := "_eval", slow := false
     stmts := (icoLoopp.getD []) ++ nbaEvalLoop.stmts },
   nbaDump,
   activeEvalLoop.vars ++ nbaEvalLoop.vars)

/-! ### `splitCheck` (split large functions per `--output-split-cfuncs`) -/

/-- The current sub-function (`funcp`) of the `splitCheck` loop, as a list
(empty while `funcp` is null). -/
def curList : Option CFunc → List CFunc
  | none => []
  | some f => [f]

/-- The loop state of `splitCheck`: the sub-function number counter, the
node count accumulated into the current sub-function (`func_stmts`), the
current sub-function (`funcp`, null before the first statement), the
completed sub-functions, and the calls appended to the original function. -/
structure SplitState where
  funcnum : Nat
  funcStmts : Nat
  cur : Option CFunc
  subs : List CFunc
  calls : List Stmt

/-- One iteration of the `splitCheck` while-loop over the unlinked
statements: start a new sub-function when there is none yet or when adding
the item would push the accumulated node count past the threshold (the new
sub-function inherits the `slow` flag and a call to it is appended to the
original function), then append the item to the current sub-function. -/
def splitStep (threshold : Nat) (name : String) (slow : Bool)
    (st : SplitState) (itemp : Stmt) : SplitState :=
  let stmts := itemp.nodeCount
  if st.cur.isNone || st.funcStmts + stmts > threshold then
    let fname := name ++ "__" ++ toString st.funcnum
    { funcnum := st.funcnum + 1
      funcStmts := 0 + stmts
      cur := some { name := fname, slow := slow, stmts := [itemp] }
      subs := st.subs ++ curList st.cur
      calls := st.calls ++ [.ccall fname] }
  else
    { st with
      cur := st.cur.map fun f => { f with stmts := f.stmts ++ [itemp] }
      funcStmts := st.funcStmts + stmts }

/-- `splitCheck(ofuncp)`: no-op when `--output-split-cfuncs` is 0 or the
function has no statements or its node count is below the threshold;
otherwise partition the statement list greedily into sub-functions and
leave only the calls in the original function.  Returns the rewritten
function and the created sub-functions, in creation order. -/
def splitCheck (threshold : Nat) (ofuncp : CFunc) : CFunc × List CFunc :=
  if threshold = 0 || ofuncp.stmts.isEmpty then (ofuncp, [])
  else if ofuncp.nodeCount < threshold then (ofuncp, [])
  else
    let fin := ofuncp.stmts.foldl (splitStep threshold ofuncp.name ofuncp.slow)
      { funcnum := 0, funcStmts := 0, cur := none, subs := [], calls := [] }
    let subs := fin.subs ++ curList fin.cur
    ({ ofuncp with stmts := fin.calls }, subs)

/-! ### Classifier (`gatherLogicClasses` of the source) -/

/-- The five buckets of the classifier's if-chain. -/
inductive Bucket where
  | bstatic
  | binitial
  | bfinal
  | bcomb
  | bclocked
deriving DecidableEq, Repr

/-- The classification if-chain of `gatherLogicClasses` for one non-empty
active block: dispatch on `hasStatic/hasInitial/hasFinal/hasCombo`, each of
those four asserting a single `AstSenItem` (`!sensesp()->nextp()`); any
other SenTree must be `hasClocked`, otherwise an internal fatal (`none`). -/
def classifyBlock (t : SenTree) : Option Bucket :=
  if t.hasStatic then (if t.rest.isEmpty then some .bstatic else none)
  else if t.hasInitial then (if t.rest.isEmpty then some .binitial else none)
  else if t.hasFinal then (if t.rest.isEmpty then some .bfinal else none)
  else if t.hasCombo then (if t.rest.isEmpty then some .bcomb else none)
  else if t.hasClocked then some .bclocked
  else none

/-- Append one classified block to its bucket. -/
def addToBucket (acc : LogicClasses) (b : Bucket) (x : ScopedLogic) : LogicClasses :=
  match b with
  | .bstatic => { acc with m_static := acc.m_static ++ [x] }
  | .binitial => { acc with m_initial := acc.m_initial ++ [x] }
  | .bfinal => { acc with m_final := acc.m_final ++ [x] }
  | .bcomb => { acc with m_comb := acc.m_comb ++ [x] }
  | .bclocked => { acc with m_clocked := acc.m_clocked ++ [x] }

/-- The inner `foreach<AstActive>` of `gatherLogicClasses`: empty blocks
are collected for deletion (skipped here and removed from the scope by the
caller); non-empty blocks are classified. -/
def gatherBlocks (sid : Nat) (sname : String) (acc : LogicClasses) :
    List ActiveBlock → Option LogicClasses
  | [] => some acc
  | b :: bs =>
    if b.stmts.isEmpty then gatherBlocks sid sname acc bs
    else
      match classifyBlock b.senTree with
      | none => none
      | some bucket =>
        gatherBlocks sid sname (addToBucket acc bucket ⟨sid, sname, b⟩) bs

/-- The outer `foreach<AstScope>` of `gatherLogicClasses`. -/
def gatherScopes (acc : LogicClasses) : List Scope → Option LogicClasses
  | [] => some acc
  | s :: ss =>
    match gatherBlocks s.id s.name acc s.blocks with
    | none => none
    | some acc' => gatherScopes acc' ss

/-- `gatherLogicClasses(netlistp)`: classify every non-empty active block
into the five buckets and unlink-and-delete every empty active block
(`none` models an internal fatal assertion). -/
def gatherLogicClasses (scopes : List Scope) : Option (LogicClasses × List Scope) :=
  match gatherScopes {} scopes with
  | none => none
  | some lc =>
    some (lc, scopes.map fun s => { s with blocks := s.blocks.filter fun b => !b.stmts.isEmpty })

/-! ### `getSenTreesUsedBy` -/

/-- The inner fold of `getSenTreesUsedBy`: the `user1SetOnce()` scratch bit
on SenTrees is modelled by the visited-id list (a tree is marked on first
sight whether or not it is collected); trees that are `hasClocked` or
`hasHybrid` are collected. -/
def gstGo : List ScopedLogic → List SenTree × List Nat → List SenTree × List Nat
  | [], acc => acc
  | pair :: rest, (res, seen) =>
    let t := pair.activep.senTree
    if t.id ∈ seen then gstGo rest (res, seen)
    else gstGo rest
      (if t.hasClocked || t.hasHybrid then res ++ [t] else res, seen ++ [t.id])

/-- `getSenTreesUsedBy(lbsps)`: the distinct clocked/hybrid SenTrees used
by the given logic buckets, each at most once. -/
def getSenTreesUsedBy (lbsps : List LogicByScope) : List SenTree :=
  (lbsps.foldl (fun acc lbsp => gstGo lbsp acc) ([], [])).1

/-! ### `remapSensitivities` -/

/-- `remapSensitivities(lbs, senTreeMap)`: redirect each non-combo active
block's sensitivity to the mapped synthetic trigger SenTree
(`senTreeMap.at(senTreep)` throws on a missing key, modelled by `none`). -/
def remapSensitivities (lbs : LogicByScope) (map : List (Nat × SenTree)) :
    Option LogicByScope :=
  match lbs with
  | [] => some []
  | pair :: rest =>
    let t := pair.activep.senTree
    if t.hasCombo then
      match remapSensitivities rest map with
      | none => none
      | some rest' => some (pair :: rest')
    else
      match lookupKV map t.id with
      | none => none
      | some t' =>
        match remapSensitivities rest map with
        | none => none
        | some rest' => some ({ pair with activep := { pair.activep with senTree := t' } } :: rest')

/-! ### Sequential emission (`orderSequentially`, `createStatic`,
`createInitial`, `createFinal` of the source) -/

/-- Unwrap an `AstNodeProcedure` body when moving logic into the per-scope
sub-function (non-procedure statements move as they are). -/
def unwrapProcedure : Stmt → List Stmt
  | .procedureS b => b
  | s => [s]

/-- Append statements to the function of the given name in the list. -/
def appendToFunc (fs : List CFunc) (n : String) (ss : List Stmt) : List CFunc :=
  fs.map fun f => if f.name = n then { f with stmts := f.stmts ++ ss } else f

/-- The loop of `orderSequentially`: per (scope, active) pair in insertion
order, create the per-scope sub-function on first sight (named
`<func>__<scopeNameDotless>`, inheriting the `slow` flag) and call it from
the top function; then move the block's statements (unwrapping procedure
nodes) into the sub-function.  The `user1p` scope-to-function scratch
pointer is modelled by the list of seen scope ids. -/
def osGo (fname : String) (fslow : Bool) :
    List ScopedLogic → List Stmt → List CFunc → List Nat → List Stmt × List CFunc
  | [], calls, subs, _ => (calls, subs)
  | pair :: rest, calls, subs, seen =>
    let subName := fname ++ "__" ++ pair.scopeName
    let (calls, subs, seen) :=
      if pair.scopeId ∈ seen then (calls, subs, seen)
      else (calls ++ [Stmt.ccall subName],
            subs ++ [{ name := subName, slow := fslow, stmts := [] }],
            seen ++ [pair.scopeId])
    let body := pair.activep.stmts.flatMap unwrapProcedure
    osGo fname fslow rest calls (appendToFunc subs subName body) seen

/-- `orderSequentially(funcp, lbs)`: returns the top function (now calling
one sub-function per scope) and the created sub-functions. -/
def orderSequentially (funcp : CFunc) (lbs : LogicByScope) : CFunc × List CFunc :=
  let (calls, subs) := osGo funcp.name funcp.slow lbs [] [] []
  ({ funcp with stmts := funcp.stmts ++ calls }, subs)

/-! ### Netlist and the external collaborators -/

/-- `AstNetlist`: the scopes (with their active blocks), the generated
functions and temp variables of the top scope (in creation order), the
DPI-export-trigger variable, the remembered nba evaluation function, and
the top module's source location (used by the convergence FATAL). -/
structure Netlist where
  scopes : List Scope
  funcs : List CFunc := []
  vars : List (String × Nat) := []
  dpiExportTrigger : Option String := none
  evalNba : Option String := none
  fileName : String
  lineNo : Nat

/-- The external passes the scheduler consumes as black boxes
(`breakCycles`, `partition`, `replicateLogic`, `V3Order::order`).
`orderO` receives the region name and the (remapped) logic buckets and
returns the ordered body function. -/
structure Oracles where
  breakCycles : LogicByScope → LogicByScope × LogicByScope
  partitionO : LogicByScope → LogicByScope → LogicByScope → LogicRegions
  replicateO : LogicRegions → LogicReplicas
  orderO : String → List LogicByScope → CFunc

/-- `createSettle(netlistp, senExprBuilder, logicClasses)`: create the
`_eval_settle` top function; when both the combinational and the hybrid
buckets are empty, return at once (the empty function stays in the
netlist); otherwise create the `stl` TriggerKit with one extra
first-iteration trigger, remap the hybrid sensitivities, order the body
function (split-checked), wrap it in an eval loop placed into
`_eval_settle`, and wire trigger bit 0 to `iterCount == 0`. -/
def createSettle (cfg : Config) (orc : Oracles) (nl : Netlist) (st : SEB)
    (lc : LogicClasses) : Option (Netlist × SEB) :=
  let funcp : CFunc := { name := "_eval_settle", slow := true, stmts := [] }
  let comb := lc.m_comb
  let hybrid := lc.m_hybrid
  if comb.isEmpty && hybrid.isEmpty then
    some ({ nl with funcs := nl.funcs ++ [funcp] }, st)
  else
    let firstIterationTrigger := 0
    let extraTriggers := firstIterationTrigger + 1
    let senTreeps := getSenTreesUsedBy [comb, hybrid]
    match createTriggers cfg st senTreeps "stl" extraTriggers true with
    | none => none
    | some (trig, st') =>
      match remapSensitivities hybrid trig.map with
      | none => none
      | some hybrid' =>
        let stlFuncp := orc.orderO "stl" [comb, hybrid']
        let (stlFuncp', stlSubs) := splitCheck cfg.outputSplitCFuncs stlFuncp
        let el := makeEvalLoop cfg nl.fileName nl.lineNo "stl" "Settle" trig.vscp
          trig.dumpName [.ccall trig.funcName] [.ccall stlFuncp'.name]
        let trigF := trig.addFirstIterationTriggerAssignment el.counter
        some
          ({ nl with
             funcs := nl.funcs ++ [{ funcp with stmts := el.stmts },
               trigF.computeFunc, trigF.dumpFunc, stlFuncp'] ++ stlSubs
             vars := nl.vars ++ trigF.newVars ++ el.vars }, st')

/-- `createInputCombLoop(netlistp, senExprBuilder, logic)`: nothing to do
when the replicated input-combinational bucket is empty; otherwise create
the `ico` TriggerKit with a first-iteration extra trigger (bit 0) and a
DPI-export extra trigger (bit 1, only when the netlist exposes the DPI
export trigger variable), remap the sensitivities, order the split-checked
body function and wrap it in an eval loop, returning the loop statements to
be embedded at the head of `_eval`.  (The SystemC-only `scSensitive`
marking of top-level inputs only sets an emitter flag and is not modelled.) -/
def createInputCombLoop (cfg : Config) (orc : Oracles) (nl : Netlist) (st : SEB)
    (logic : LogicByScope) : Option (Netlist × SEB × Option (List Stmt)) :=
  if logic.isEmpty then some (nl, st, none)
  else
    let dpi := nl.dpiExportTrigger
    let extraTriggers := if dpi.isSome then 2 else 1
    let dpiExportTriggerIndex := 1
    let senTreeps := getSenTreesUsedBy [logic]
    match createTriggers cfg st senTreeps "ico" extraTriggers false with
    | none => none
    | some (trig0, st') =>
      let trig :=
        match dpi with
        | some d => trig0.addDpiExportTriggerAssignment d dpiExportTriggerIndex
        | none => trig0
      match remapSensitivities logic trig.map with
      | none => none
      | some logic' =>
        let icoFuncp := orc.orderO "ico" [logic']
        let (icoFuncp', icoSubs) := splitCheck cfg.outputSplitCFuncs icoFuncp
        let el := makeEvalLoop cfg nl.fileName nl.lineNo "ico" "Input combinational"
          trig.vscp trig.dumpName [.ccall trig.funcName] [.ccall icoFuncp'.name]
        let trigF := trig.addFirstIterationTriggerAssignment el.counter
        some
          ({ nl with
             funcs := nl.funcs ++ [trigF.computeFunc, trigF.dumpFunc, icoFuncp'] ++ icoSubs
             vars := nl.vars ++ trigF.newVars ++ el.vars }, st', some el.stmts)

/-- The `cloneMapWithNewTriggerReferences` helper of `schedule`: copy the
act SenTree map, replacing in each mapped synthetic tree the reference to
the act trigger vector by a reference to the given vector. -/
def cloneMapWithNewTriggerReferences (map : List (Nat × SenTree)) (vscp : String) :
    List (Nat × SenTree) :=
  map.map fun p =>
    (p.1,
      { p.2 with
        first := { p.2.first with
          sens := match p.2.first.sens with
            | .trigAt _ i => .trigAt vscp i
            | s => s } })

/-- `schedule(netlistp)`: the top driver, with the external passes passed
in as `Oracles`.  Follows the fixed step sequence of the source: classify;
emit `_eval_static` (split now), `_eval_initial` (split at the very end),
`_eval_final` (split now); break combinational cycles; create the shared
`SenExprBuilder`; create the settle region; partition and replicate;
create the input combinational loop; create the shared `act` TriggerKit
(with a DPI extra trigger when present) and the pre/nba trigger vectors
with remapped clones of its map; order and split-check the act and nba
body functions; assemble `_eval`; split-check the initial function (which
now holds the shadow initializers); clear the DPI-export-trigger. -/
def schedule (cfg : Config) (orc : Oracles) (nl0 : Netlist) : Option Netlist :=
  match gatherLogicClasses nl0.scopes with
  | none => none
  | some (lc0, scopes') =>
    let nl := { nl0 with scopes := scopes' }
    -- Step 2: static, initial, final (in source order)
    let (statF0, statSubs) :=
      orderSequentially { name := "_eval_static", slow := true, stmts := [] } lc0.m_static
    let (statF, statSplit) := splitCheck cfg.outputSplitCFuncs statF0
    let (initF0, initSubs) :=
      orderSequentially { name := "_eval_initial", slow := true, stmts := [] } lc0.m_initial
    let (finalF0, finalSubs) :=
      orderSequentially { name := "_eval_final", slow := true, stmts := [] } lc0.m_final
    let (finalF, finalSplit) := splitCheck cfg.outputSplitCFuncs finalF0
    let nl := { nl with funcs := nl.funcs ++ [statF] ++ statSubs ++ statSplit
      ++ initSubs ++ [finalF] ++ finalSubs ++ finalSplit }
    -- Step 3: break combinational cycles
    let (comb', hybrid) := orc.breakCycles lc0.m_comb
    let lc := { lc0 with m_comb := comb', m_hybrid := hybrid }
    -- the shared SenExprBuilder
    let st0 : SEB := {}
    -- Step 4: settle
    match createSettle cfg orc nl st0 lc with
    | none => none
    | some (nl, st1) =>
      -- Steps 5, 6: partition, replicate
      let regions := orc.partitionO lc.m_clocked lc.m_comb lc.m_hybrid
      let replicas := orc.replicateO regions
      -- Step 7: input combinational loop
      match createInputCombLoop cfg orc nl st1 replicas.m_ico with
      | none => none
      | some (nl, st2, icoLoopp) =>
        -- Step 8: the pre/act/nba triggers
        let dpi := nl.dpiExportTrigger
        let extraTriggers := if dpi.isSome then 1 else 0
        let dpiExportTriggerIndex := 0
        let senTreeps :=
          getSenTreesUsedBy [regions.m_pre, regions.m_act, regions.m_nba]
        match createTriggers cfg st2 senTreeps "act" extraTriggers false with
        | none => none
        | some (actTrig0, st3) =>
          let actTrig :=
            match dpi with
            | some d => actTrig0.addDpiExportTriggerAssignment d dpiExportTriggerIndex
            | none => actTrig0
          let preVec := "__VpreTriggered"
          let nbaVec := "__VnbaTriggered"
          let preMap := cloneMapWithNewTriggerReferences actTrig.map preVec
          let nbaMap := cloneMapWithNewTriggerReferences actTrig.map nbaVec
          -- Step 9: the act body function
          match remapSensitivities regions.m_pre preMap with
          | none => none
          | some pre' =>
            match remapSensitivities regions.m_act actTrig.map with
            | none => none
            | some act' =>
              match remapSensitivities replicas.m_act actTrig.map with
              | none => none
              | some actR' =>
                let actFuncp := orc.orderO "act" [pre', act', actR']
                let (actF, actSplit) := splitCheck cfg.outputSplitCFuncs actFuncp
                -- Step 10: the nba body function
                match remapSensitivities regions.m_nba nbaMap with
                | none => none
                | some nba' =>
                  match remapSensitivities replicas.m_nba nbaMap with
                  | none => none
                  | some nbaR' =>
                    let nbaFuncp := orc.orderO "nba" [nba', nbaR']
                    let (nbaF, nbaSplit) := splitCheck cfg.outputSplitCFuncs nbaFuncp
                    -- Step 11: assemble _eval
                    let (evalF, nbaDumpF, evalVars) :=
                      createEval cfg nl.fileName nl.lineNo icoLoopp actTrig
                        preVec nbaVec actF.name nbaF.name
                    -- the initial function now receives the shadow initializers
                    let initFull := { initF0 with stmts := initF0.stmts ++ st3.initStmts }
                    let (initF, initSplit) := splitCheck cfg.outputSplitCFuncs initFull
                    some
                      { nl with
                        funcs := nl.funcs
                          ++ [actTrig.computeFunc, actTrig.dumpFunc]
                          ++ [actF] ++ actSplit ++ [nbaF] ++ nbaSplit
                          ++ [evalF, nbaDumpF, initF] ++ initSplit
                        vars := nl.vars ++ actTrig.newVars
                          ++ [(preVec, actTrig.width), (nbaVec, actTrig.width)] ++ evalVars
                        dpiExportTrigger := none
                        evalNba := some nbaF.name }

/-! ### Statement-shape extraction utilities

These decompose the IR produced by `makeEvalLoop` back into its parts, so
theorems can speak about "the trigger computation" and "the per-iteration
triggered body" of a generated eval loop. -/

/-- Split a statement list into its leading statements and its last one. -/
def splitLast : List Stmt → Option (List Stmt × Stmt)
  | [] => none
  | [x] => some ([], x)
  | x :: y :: xs =>
    match splitLast (y :: xs) with
    | none => none
    | some (ini, last) => some (x :: ini, last)

/-- Decompose a `makeEvalLoop`-shaped statement list into its
trigger-computation statements and its triggered-iteration body (the
statements following the continuation set, the divergence check and the
counter increment inside the `if (trigVec.any())` branch). -/
def iterParts (l : List Stmt) : Option (List Stmt × List Stmt) :=
  match l with
  | [_, _, .whileS _ (_ :: rest)] =>
    match splitLast rest with
    | some (trigs, .ifS _ (_ :: _ :: _ :: body) _) => some (trigs, body)
    | _ => none
  | _ => none

/-- The full `if (trigVec.any())` branch of a `makeEvalLoop`-shaped list. -/
def iterBranch (l : List Stmt) : Option (List Stmt) :=
  match l with
  | [_, _, .whileS _ (_ :: rest)] =>
    match splitLast rest with
    | some (_, .ifS _ branch _) => some branch
    | _ => none
  | _ => none

/-- The while-loop body of a `makeEvalLoop`-shaped list. -/
def whileBody (l : List Stmt) : Option (List Stmt) :=
  match l with
  | [_, _, .whileS _ b] => some b
  | _ => none

mutual

/-- Number of assignments (at any nesting depth) whose left-hand side is a
plain reference to the variable `v`. -/
def assignsTo (v : String) : Stmt → Nat
  | .assign (.varref w) _ => if w = v then 1 else 0
  | .ifS _ t e => assignsToList v t + assignsToList v e
  | .whileS _ b => assignsToList v b
  | .procedureS b => assignsToList v b
  | _ => 0

/-- List version of `assignsTo`. -/
def assignsToList (v : String) : List Stmt → Nat
  | [] => 0
  | s :: ss => assignsTo v s + assignsToList v ss

end

/-! ### Characterization of the greedy split

`greedyChunks` is the statement-list partition `splitCheck` computes, as a
direct recursion; `chunkOk`/`boundariesOk` state the greedy property:
within a chunk every statement fits under the threshold, and each chunk
boundary is forced (appending the next statement would exceed it). -/

/-- Greedy chunking, current chunk and its accumulated node count. -/
def greedyGo (T : Nat) (cur : List Stmt) (n : Nat) : List Stmt → List (List Stmt)
  | [] => [cur]
  | x :: xs =>
    if n + x.nodeCount > T then cur :: greedyGo T [x] x.nodeCount xs
    else greedyGo T (cur ++ [x]) (n + x.nodeCount) xs

/-- Greedy partition of a statement list by cumulative node count. -/
def greedyChunks (T : Nat) : List Stmt → List (List Stmt)
  | [] => []
  | x :: xs => greedyGo T [x] x.nodeCount xs

/-- The sub-functions `splitCheck` creates from the chunks: indexed names
`<name>__<i>`, inherited `slow` flag. -/
def chunkFuncs (name : String) (slow : Bool) : Nat → List (List Stmt) → List CFunc
  | _, [] => []
  | i, c :: rest =>
    { name := name ++ "__" ++ toString i, slow := slow, stmts := c }
      :: chunkFuncs name slow (i + 1) rest

/-- Within-chunk property, `n` being the node count accumulated so far:
every further statement of the chunk still fits under the threshold. -/
def chunkOkGo (T : Nat) : Nat → List Stmt → Prop
  | _, [] => True
  | n, y :: ys => n + y.nodeCount ≤ T ∧ chunkOkGo T (n + y.nodeCount) ys

/-- A chunk is greedy-closed: after its (unconditionally accepted) first
statement, each next statement fits under the threshold. -/
def chunkOk (T : Nat) : List Stmt → Prop
  | [] => True
  | x :: rest => chunkOkGo T x.nodeCount rest

/-- Boundary property relative to the node count of the previous chunk:
each chunk starts with a statement that would not have fit into the
previous chunk. -/
def boundsGo (T : Nat) : Nat → List (List Stmt) → Prop
  | _, [] => True
  | prevSum, c :: rest =>
    (∃ y ys, c = y :: ys ∧ prevSum + y.nodeCount > T) ∧
      boundsGo T (Stmt.nodeCountList c) rest

/-- Every chunk boundary of the partition is forced by the threshold. -/
def boundariesOk (T : Nat) : List (List Stmt) → Prop
  | [] => True
  | c :: rest => boundsGo T (Stmt.nodeCountList c) rest

/-! ### Auxiliary projections of SenExprBuilder runs -/

/-- Bool form of the side conditions under which `createTerm` does not hit
a fatal assertion: the edge is one the switch handles, and events only
occur when event support is on. -/
def legalItemB (cfg : Config) (i : SenItem) : Bool :=
  i.edge != .ET_TRUE && (i.edge != .ET_EVENT || cfg.hasEvents)

/-- The `resultp` accumulation of `SenExprBuilder::build`: OR-fold of the
non-null per-item term expressions onto an accumulator. -/
def orFold : Option Expr → List Expr → Option Expr
  | acc, [] => acc
  | none, t :: ts => orFold (some t) ts
  | some r, t :: ts => orFold (some (.orOp r t)) ts

/-- The sequence of non-null per-item term expressions of a sensitivity
list, threading the builder state through `createTerm` in item order. -/
def termSeq (cfg : Config) : SEB → List SenItem → Option (List Expr × SEB)
  | st, [] => some ([], st)
  | st, i :: rest =>
    match SEB.createTerm cfg st i with
    | none => none
    | some ((termo, _), st') =>
      match termSeq cfg st' rest with
      | none => none
      | some (es, stF) =>
        some ((match termo with | none => es | some t => t :: es), stF)

/-- The sequence of `build` results over a list of SenTrees, threading the
builder state (the trigger expressions `createTriggers` assigns, in input
order). -/
def buildSeq (cfg : Config) : SEB → List SenTree → Option (List (Option Expr × Bool) × SEB)
  | st, [] => some ([], st)
  | st, t :: ts =>
    match SEB.build cfg st t with
    | none => none
    | some (r, st') =>
      match buildSeq cfg st' ts with
      | none => none
      | some (rs, stF) => some (r :: rs, stF)

/-- The map entries the `createTriggers` loop produces for fresh keys, in
input order starting at trigger number `k`. -/
def mapEntries (vscp : String) : Nat → List SenTree → List (Nat × SenTree)
  | _, [] => []
  | k, t :: ts => (t.id, trigSenTree vscp k) :: mapEntries vscp (k + 1) ts

/-- The trigger-bit assignments the `createTriggers` loop produces, in
input order starting at trigger number `k`. -/
def trigAssigns (vscp : String) : Nat → List (Option Expr × Bool) → List Stmt
  | _, [] => []
  | k, r :: rs =>
    .assign (.trigAt vscp k) (exprOrNull r.1) :: trigAssigns vscp (k + 1) rs

/-- Keys of a SenTree map. -/
def kvKeys (m : List (Nat × SenTree)) : List Nat := m.map Prod.fst

/-! ### Traces of SenExprBuilder operations

A client of the shared builder performs an arbitrary interleaving of
`getPrev`/`createTerm`/`build` calls and `getAndClearUpdates` rounds; the
builder invariants are stated over all such traces. -/

/-- One builder operation. -/
inductive SEBOp where
  | getPrevOp (e : SenExpr)
  | termOp (i : SenItem)
  | buildOp (t : SenTree)
  | takeUpdatesOp

/-- The state effect of one builder operation (a fatal `createTerm` aborts
the compiler; its state effect is irrelevant and modelled as a no-op). -/
def runOp (cfg : Config) (st : SEB) : SEBOp → SEB
  | .getPrevOp e => (st.getPrev e).2
  | .termOp i =>
    match SEB.createTerm cfg st i with
    | none => st
    | some (_, st') => st'
  | .buildOp t =>
    match SEB.build cfg st t with
    | none => st
    | some (_, st') => st'
  | .takeUpdatesOp => st.getAndClearUpdates.2

/-- Run a trace of builder operations from a state. -/
def runTrace (cfg : Config) : List SEBOp → SEB → SEB
  | [], st => st
  | op :: ops, st => runTrace cfg ops (runOp cfg st op)

/-- Whether a statement is the shadow initializer / shadow update for the
sensed expression `e` (an assignment whose right-hand side is the clone of
`e`; both the initializer and the round update have this shape, and
nothing else the builder emits does). -/
def isShadowStmtFor (e : SenExpr) : Stmt → Bool
  | .assign _ (.senExpr e') => e' == e
  | _ => false

/-- The builder-state invariant of C3: shadow variables are per distinct
sensed expression (the `m_prev` keys are pairwise distinct), every sensed
expression that has been seen has exactly one initializer appended to the
initialization function, and the pending update list holds exactly one
shadow update per expression of the per-round dedup set (hence at most one
per expression per round). -/
def SEBInv (st : SEB) : Prop :=
  (st.prev.map Prod.fst).Nodup ∧
  (∀ e, (st.initStmts.filter (isShadowStmtFor e)).length
      = (if e ∈ st.prev.map Prod.fst then 1 else 0)) ∧
  (∀ e, (st.updates.filter (isShadowStmtFor e)).length
      = (if e ∈ st.hasUpdate then 1 else 0))

/-! ### Classifier chain predicates

The if-chain of `gatherLogicClasses`, as one Bool predicate per bucket. -/

/-- First chain test: `hasStatic`. -/
def chainStatic (t : SenTree) : Bool := t.hasStatic

/-- Second chain test: not static, `hasInitial`. -/
def chainInitial (t : SenTree) : Bool := !t.hasStatic && t.hasInitial

/-- Third chain test: `hasFinal`. -/
def chainFinal (t : SenTree) : Bool := !t.hasStatic && !t.hasInitial && t.hasFinal

/-- Fourth chain test: `hasCombo`. -/
def chainCombo (t : SenTree) : Bool :=
  !t.hasStatic && !t.hasInitial && !t.hasFinal && t.hasCombo

/-- Last chain test: `hasClocked`. -/
def chainClocked (t : SenTree) : Bool :=
  !t.hasStatic && !t.hasInitial && !t.hasFinal && !t.hasCombo && t.hasClocked

/-- All (scope, active block) pairs of a netlist, in traversal order. -/
def allPairs (scopes : List Scope) : List ScopedLogic :=
  scopes.flatMap fun s => s.blocks.map fun b => ⟨s.id, s.name, b⟩

/-- Membership in exactly one of the five classifier buckets. -/
def inExactlyOneBucket (lc : LogicClasses) (x : ScopedLogic) : Prop :=
  (x ∈ lc.m_static ∧ x ∉ lc.m_initial ∧ x ∉ lc.m_final ∧ x ∉ lc.m_comb ∧ x ∉ lc.m_clocked) ∨
  (x ∉ lc.m_static ∧ x ∈ lc.m_initial ∧ x ∉ lc.m_final ∧ x ∉ lc.m_comb ∧ x ∉ lc.m_clocked) ∨
  (x ∉ lc.m_static ∧ x ∉ lc.m_initial ∧ x ∈ lc.m_final ∧ x ∉ lc.m_comb ∧ x ∉ lc.m_clocked) ∨
  (x ∉ lc.m_static ∧ x ∉ lc.m_initial ∧ x ∉ lc.m_final ∧ x ∈ lc.m_comb ∧ x ∉ lc.m_clocked) ∨
  (x ∉ lc.m_static ∧ x ∉ lc.m_initial ∧ x ∉ lc.m_final ∧ x ∉ lc.m_comb ∧ x ∈ lc.m_clocked)

/-- The assertions of the classifier chain: static/initial/final/combo
trees (as dispatched by the chain) have a single SenItem, and a tree
matching none of those four classes is clocked. -/
def singleItemChain (t : SenTree) : Prop :=
  (chainStatic t = true → t.rest = []) ∧
  (chainInitial t = true → t.rest = []) ∧
  (chainFinal t = true → t.rest = []) ∧
  (chainCombo t = true → t.rest = []) ∧
  (chainStatic t = false → chainInitial t = false → chainFinal t = false →
    chainCombo t = false → t.hasClocked = true)

/-! ### Concrete example inputs (used by counterexamples and witnesses) -/

/-- A statement of node count 3. -/
def stmt3 : Stmt := .assign (.varref "v") (.const 0)

/-- A function of node count 16 holding five statements of node count 3. -/
def cf9 : CFunc := { name := "f", slow := false, stmts := [stmt3, stmt3, stmt3, stmt3, stmt3] }

/-- A netlist with one empty top scope. -/
def emptyNetlist : Netlist :=
  { scopes := [{ id := 0, name := "top", blocks := [] }], fileName := "t.v", lineNo := 1 }

/-- Trivial instantiations of the external passes, consistent with their
contracts on empty inputs (`breakCycles` moves nothing, `partition` and
`replicateLogic` of empty logic are empty, `order` returns an empty body
function). -/
def trivialOracles : Oracles :=
  { breakCycles := fun c => (c, [])
    partitionO := fun _ _ _ => {}
    replicateO := fun _ => {}
    orderO := fun n _ => { name := "_eval__" ++ n, slow := false, stmts := [] } }

/-- A clocked single-item posedge SenTree on variable `clk`. -/
def tClk : SenTree :=
  { id := 1, first := { edge := .ET_POSEDGE, sens := .varref "top" "clk" }, rest := [],
    hasClocked := true }

/-- A clocked two-item SenTree (posedge `clk`, changed `d`). -/
def tClk2 : SenTree :=
  { id := 2, first := { edge := .ET_POSEDGE, sens := .varref "top" "clk" },
    rest := [{ edge := .ET_CHANGED, sens := .varref "top" "d" }], hasClocked := true }

/-- A combinational single-item SenTree. -/
def tCombo : SenTree :=
  { id := 3, first := { edge := .ET_CHANGED, sens := .varref "top" "a" }, rest := [],
    hasCombo := true }

/-- A scope with one clocked non-empty block, one combinational non-empty
block and one empty block. -/
def scope5 : Scope :=
  { id := 0, name := "top",
    blocks :=
      [{ id := 10, senTree := tClk, stmts := [stmt3] },
       { id := 11, senTree := tCombo, stmts := [stmt3] },
       { id := 12, senTree := tClk, stmts := [] }] }

/-! ## Theorems -/

/-! ### C10: `getSenTreesUsedBy` dedups and keeps only clocked/hybrid -/

theorem gstGo_inv (l : List ScopedLogic) :
    ∀ (res : List SenTree) (seen : List Nat),
      (res.map SenTree.id).Nodup →
      (∀ t ∈ res, t.hasClocked = true ∨ t.hasHybrid = true) →
      (∀ t ∈ res, t.id ∈ seen) →
      ((gstGo l (res, seen)).1.map SenTree.id).Nodup ∧
      (∀ t ∈ (gstGo l (res, seen)).1, t.hasClocked = true ∨ t.hasHybrid = true) ∧
      (∀ t ∈ (gstGo l (res, seen)).1, t.id ∈ (gstGo l (res, seen)).2) := by
  induction l with
  | nil => exact fun res seen h1 h2 h3 => ⟨h1, h2, h3⟩
  | cons pair rest ih =>
    intro res seen h1 h2 h3
    by_cases hmem : pair.activep.senTree.id ∈ seen
    · simpa [gstGo, hmem] using ih res seen h1 h2 h3
    · by_cases hch : pair.activep.senTree.hasClocked = true ∨ pair.activep.senTree.hasHybrid = true
      · have hnotin : pair.activep.senTree.id ∉ res.map SenTree.id := by
          intro hin
          obtain ⟨t, ht, hte⟩ := List.exists_of_mem_map hin
          exact hmem (hte ▸ h3 t ht)
        have hcond : (pair.activep.senTree.hasClocked || pair.activep.senTree.hasHybrid) = true := by
          rcases hch with h | h <;> simp [h]
        have := ih (res ++ [pair.activep.senTree]) (seen ++ [pair.activep.senTree.id])
          (by simp [List.nodup_append, h1, hnotin])
          (by
            intro t ht
            rcases List.mem_append.mp ht with h | h
            · exact h2 t h
            · simpa using (List.mem_singleton.mp h) ▸ hch)
          (by
            intro t ht
            rcases List.mem_append.mp ht with h | h
            · exact List.mem_append_left _ (h3 t h)
            · simp [List.mem_singleton.mp h])
        simpa [gstGo, hmem, hcond] using this
      · have hcond : (pair.activep.senTree.hasClocked || pair.activep.senTree.hasHybrid) = false := by
          push_neg at hch
          simp [hch.1, hch.2]
        have := ih res (seen ++ [pair.activep.senTree.id]) h1 h2
          (fun t ht => List.mem_append_left _ (h3 t ht))
        simpa [gstGo, hmem, hcond] using this

theorem gstFold_inv (ls : List LogicByScope) :
    ∀ (acc : List SenTree × List Nat),
      (acc.1.map SenTree.id).Nodup →
      (∀ t ∈ acc.1, t.hasClocked = true ∨ t.hasHybrid = true) →
      (∀ t ∈ acc.1, t.id ∈ acc.2) →
      (((ls.foldl (fun a l => gstGo l a) acc).1.map SenTree.id).Nodup ∧
        (∀ t ∈ (ls.foldl (fun a l => gstGo l a) acc).1,
          t.hasClocked = true ∨ t.hasHybrid = true) ∧
        (∀ t ∈ (ls.foldl (fun a l => gstGo l a) acc).1,
          t.id ∈ (ls.foldl (fun a l => gstGo l a) acc).2)) := by
  induction ls with
  | nil => exact fun acc h1 h2 h3 => ⟨h1, h2, h3⟩
  | cons l rest ih =>
    intro acc h1 h2 h3
    have h := gstGo_inv l acc.1 acc.2 h1 h2 h3
    simpa using ih (gstGo l acc) h.1 h.2.1 h.2.2

/-- C10: for every vector of LogicByScope buckets, `getSenTreesUsedBy`
returns each distinct SenTree at most once (the returned ids are pairwise
distinct, so the same SenTree shared by several active blocks or buckets
is collected once), and the returned list contains only SenTrees that are
clocked or hybrid — all other sensitivities (combo included) are
excluded. -/
theorem c10_getSenTreesUsedBy (lbsps : List LogicByScope) :
    ((getSenTreesUsedBy lbsps).map SenTree.id).Nodup ∧
    ∀ t ∈ getSenTreesUsedBy lbsps, t.hasClocked = true ∨ t.hasHybrid = true := by
  have h := gstFold_inv lbsps ([], []) (by simp) (by simp) (by simp)
  exact ⟨h.1, h.2.1⟩

/-- Closed witness for C10: the same clocked SenTree shared by two active
blocks is collected once. -/
theorem c10_getSenTreesUsedBy_witness :
    ((getSenTreesUsedBy [[⟨0, "top", { id := 20, senTree := tClk, stmts := [] }⟩,
        ⟨0, "top", { id := 21, senTree := tClk, stmts := [] }⟩]]).map SenTree.id).Nodup ∧
    (tClk.hasClocked = true ∨ tClk.hasHybrid = true) := by
  have h := c10_getSenTreesUsedBy [[⟨0, "top", { id := 20, senTree := tClk, stmts := [] }⟩,
      ⟨0, "top", { id := 21, senTree := tClk, stmts := [] }⟩]]
  exact ⟨h.1, h.2 tClk (by decide)⟩

/-! ### C1: structure of the `_eval` nested loops -/

theorem splitLast_append (l : List Stmt) (x : Stmt) : splitLast (l ++ [x]) = some (l, x) := by
  induction l with
  | nil => rfl
  | cons a l ih =>
    cases l with
    | nil => rfl
    | cons b l' =>
      simp only [List.cons_append] at ih ⊢
      show (match splitLast (b :: (l' ++ [x])) with
        | none => none
        | some (ini, last) => some (a :: ini, last)) = some (a :: b :: l', x)
      rw [ih]

theorem assignsToList_append (v : String) (l₁ l₂ : List Stmt) :
    assignsToList v (l₁ ++ l₂) = assignsToList v l₁ + assignsToList v l₂ := by
  induction l₁ with
  | nil => simp [assignsToList]
  | cons s ss ih => simp [assignsToList, ih]; omega

theorem iterParts_makeEvalLoop (cfg : Config) (topFile : String) (topLine : Nat)
    (tag name trigV dumpN : String) (ct body : List Stmt) :
    iterParts (makeEvalLoop cfg topFile topLine tag name trigV dumpN ct body).stmts
      = some (ct, body) := by
  simp [makeEvalLoop, buildLoop, iterParts, splitLast_append]

/-- C1: in the generated `_eval`, the Active eval loop's per-iteration
body is exactly: `preTrig := actTrig andNot nbaTrig`, then
`nbaTrig := nbaTrig set actTrig`, then the call of the act body function
(its trigger computation being the call of the act trigger compute
function); and the enclosing NBA eval loop's trigger computation first
clears the NBA trigger vector and then runs the entire Active eval loop,
while the NBA loop's body is exactly the call of the NBA body function. -/
theorem c1_createEval_loops (cfg : Config) (topFile : String) (topLine : Nat)
    (icoLoopp : Option (List Stmt)) (actTrig : TriggerKit) (preTrigsp nbaTrigsp : String)
    (actFuncName nbaFuncName : String) :
    iterParts
        ((createEval cfg topFile topLine icoLoopp actTrig preTrigsp nbaTrigsp
            actFuncName nbaFuncName).1.stmts.drop (icoLoopp.getD []).length)
      = some (Stmt.cMethodStmt nbaTrigsp "clear" []
          :: (makeEvalLoop cfg topFile topLine "act" "Active" actTrig.vscp actTrig.dumpName
              [.ccall actTrig.funcName]
              [.cMethodStmt preTrigsp "andNot" [actTrig.vscp, nbaTrigsp],
               .cMethodStmt nbaTrigsp "set" [actTrig.vscp],
               .ccall actFuncName]).stmts,
          [.ccall nbaFuncName]) ∧
    iterParts
        (makeEvalLoop cfg topFile topLine "act" "Active" actTrig.vscp actTrig.dumpName
          [.ccall actTrig.funcName]
          [.cMethodStmt preTrigsp "andNot" [actTrig.vscp, nbaTrigsp],
           .cMethodStmt nbaTrigsp "set" [actTrig.vscp],
           .ccall actFuncName]).stmts
      = some ([.ccall actTrig.funcName],
          [.cMethodStmt preTrigsp "andNot" [actTrig.vscp, nbaTrigsp],
           .cMethodStmt nbaTrigsp "set" [actTrig.vscp],
           .ccall actFuncName]) := by
  constructor
  · have h : (createEval cfg topFile topLine icoLoopp actTrig preTrigsp nbaTrigsp
        actFuncName nbaFuncName).1.stmts
        = (icoLoopp.getD []) ++
          (makeEvalLoop cfg topFile topLine "nba" "NBA" nbaTrigsp "_dump_triggers__nba"
            (.cMethodStmt nbaTrigsp "clear" []
              :: (makeEvalLoop cfg topFile topLine "act" "Active" actTrig.vscp
                  actTrig.dumpName [.ccall actTrig.funcName]
                  [.cMethodStmt preTrigsp "andNot" [actTrig.vscp, nbaTrigsp],
                   .cMethodStmt nbaTrigsp "set" [actTrig.vscp],
                   .ccall actFuncName]).stmts)
            [.ccall nbaFuncName]).stmts := rfl
    rw [h, List.drop_left]
    exact iterParts_makeEvalLoop cfg topFile topLine "nba" "NBA" nbaTrigsp
      "_dump_triggers__nba" _ _
  · exact iterParts_makeEvalLoop cfg topFile topLine "act" "Active" actTrig.vscp
      actTrig.dumpName _ _

/-! ### C6: structure of every eval loop (counter, divergence check, FATAL) -/

theorem evalLoopNamesNe (tag : String) :
    ("__V" ++ tag ++ "Continue") ≠ ("__V" ++ tag ++ "IterCount") := by
  intro h
  have h2 := congrArg String.length h
  simp [String.length_append] at h2
  exact absurd h2 (by decide)

/-- C6: every eval loop synthesized by `makeEvalLoop` initializes its
32-bit iteration counter to 0 as its first statement, increments it
exactly once, inside the triggered (`trigVec.any()`) branch — there are
exactly two assignments to the counter in the whole loop, the
initialization and that increment, assuming the caller-provided trigger
computation and body do not assign it — and that branch contains, right
after the continuation set, the divergence check
`if counter > convergeLimit` whose true branch is the debug-guarded
trigger dump plus the `VL_FATAL_MT` citing the top module's file and line
with message `"<humanName> region did not converge."`. -/
theorem c6_makeEvalLoop (cfg : Config) (topFile : String) (topLine : Nat)
    (tag name trigV dumpN : String) (ct body : List Stmt)
    (h1 : assignsToList ("__V" ++ tag ++ "IterCount") ct = 0)
    (h2 : assignsToList ("__V" ++ tag ++ "IterCount") body = 0) :
    (makeEvalLoop cfg topFile topLine tag name trigV dumpN ct body).counter
        = "__V" ++ tag ++ "IterCount" ∧
    ((makeEvalLoop cfg topFile topLine tag name trigV dumpN ct body).counter, 32)
        ∈ (makeEvalLoop cfg topFile topLine tag name trigV dumpN ct body).vars ∧
    (makeEvalLoop cfg topFile topLine tag name trigV dumpN ct body).stmts.head?
        = some (setVarS ("__V" ++ tag ++ "IterCount") 0) ∧
    iterBranch (makeEvalLoop cfg topFile topLine tag name trigV dumpN ct body).stmts
        = some ([setVarS ("__V" ++ tag ++ "Continue") 1,
            Stmt.ifS (.gt (.varref ("__V" ++ tag ++ "IterCount")) (.const cfg.convergeLimit))
              [.fatalBlock dumpN topFile topLine (name ++ " region did not converge.")] [],
            Stmt.assign (.varref ("__V" ++ tag ++ "IterCount"))
              (.add (.varref ("__V" ++ tag ++ "IterCount")) (.const 1))] ++ body) ∧
    assignsToList ("__V" ++ tag ++ "IterCount")
        (makeEvalLoop cfg topFile topLine tag name trigV dumpN ct body).stmts = 2 ∧
    (∀ wb, whileBody (makeEvalLoop cfg topFile topLine tag name trigV dumpN ct body).stmts
        = some wb → assignsToList ("__V" ++ tag ++ "IterCount") wb = 1) := by
  refine ⟨rfl, by simp [makeEvalLoop], by simp [makeEvalLoop, buildLoop], ?_, ?_, ?_⟩
  · simp [makeEvalLoop, buildLoop, iterBranch, splitLast_append]
  · simp [makeEvalLoop, buildLoop, assignsToList, assignsTo, setVarS,
      assignsToList_append, evalLoopNamesNe tag, h1, h2]
  · intro wb hwb
    simp [makeEvalLoop, buildLoop, whileBody] at hwb
    subst hwb
    simp [assignsToList, assignsTo, setVarS, assignsToList_append,
      evalLoopNamesNe tag, h1, h2]

/-- Closed witness for C6 at a concrete instantiation. -/
theorem c6_makeEvalLoop_witness :
    assignsToList ("__V" ++ "stl" ++ "IterCount") [Stmt.ccall "_eval_triggers__stl"] = 0 ∧
    assignsToList ("__V" ++ "stl" ++ "IterCount")
        (makeEvalLoop {} "t.v" 1 "stl" "Settle" "__VstlTriggered" "_dump_triggers__stl"
          [Stmt.ccall "_eval_triggers__stl"] [Stmt.ccall "_eval_stl"]).stmts = 2 :=
  ⟨by decide,
    (c6_makeEvalLoop {} "t.v" 1 "stl" "Settle" "__VstlTriggered" "_dump_triggers__stl"
      [Stmt.ccall "_eval_triggers__stl"] [Stmt.ccall "_eval_stl"]
      (by decide) (by decide)).2.2.2.2.1⟩

/-! ### C8/C9: `splitCheck` -/

theorem nodeCountList_append (l₁ l₂ : List Stmt) :
    Stmt.nodeCountList (l₁ ++ l₂) = Stmt.nodeCountList l₁ + Stmt.nodeCountList l₂ := by
  induction l₁ with
  | nil => simp [Stmt.nodeCountList]
  | cons s ss ih => simp [Stmt.nodeCountList, ih]; omega

theorem greedyGo_join (T : Nat) :
    ∀ (xs cur : List Stmt) (n : Nat), (greedyGo T cur n xs).flatten = cur ++ xs := by
  intro xs
  induction xs with
  | nil => intro cur n; simp [greedyGo]
  | cons x xs ih =>
    intro cur n
    by_cases h : n + x.nodeCount > T
    · simp [greedyGo, h, ih]
    · simp [greedyGo, h, ih]

theorem greedyGo_ne_nil (T : Nat) :
    ∀ (xs cur : List Stmt) (n : Nat), cur ≠ [] → ∀ c ∈ greedyGo T cur n xs, c ≠ [] := by
  intro xs
  induction xs with
  | nil => intro cur n hne c hc; simp [greedyGo] at hc; exact hc ▸ hne
  | cons x xs ih =>
    intro cur n hne c hc
    by_cases h : n + x.nodeCount > T
    · simp [greedyGo, h] at hc
      rcases hc with hc | hc
      · exact hc ▸ hne
      · exact ih [x] x.nodeCount (by simp) c hc
    · simp [greedyGo, h] at hc
      exact ih (cur ++ [x]) (n + x.nodeCount) (by simp) c hc

theorem chunkOkGo_append (T : Nat) (x : Stmt) :
    ∀ (ys : List Stmt) (n : Nat),
      chunkOkGo T n (ys ++ [x]) ↔
        chunkOkGo T n ys ∧ n + Stmt.nodeCountList ys + x.nodeCount ≤ T := by
  intro ys
  induction ys with
  | nil => intro n; simp [chunkOkGo, Stmt.nodeCountList]
  | cons y ys ih =>
    intro n
    simp [chunkOkGo, ih (n + y.nodeCount), Stmt.nodeCountList]
    constructor
    · rintro ⟨h1, h2, h3⟩; refine ⟨⟨h1, h2⟩, by omega⟩
    · rintro ⟨⟨h1, h2⟩, h3⟩; exact ⟨h1, h2, by omega⟩

theorem greedyGo_chunkOk (T : Nat) :
    ∀ (xs cur : List Stmt) (n : Nat), n = Stmt.nodeCountList cur → chunkOk T cur →
      cur ≠ [] → ∀ c ∈ greedyGo T cur n xs, chunkOk T c := by
  intro xs
  induction xs with
  | nil => intro cur n _ hok _ c hc; simp [greedyGo] at hc; exact hc ▸ hok
  | cons x xs ih =>
    intro cur n hn hok hne c hc
    by_cases h : n + x.nodeCount > T
    · simp [greedyGo, h] at hc
      rcases hc with hc | hc
      · exact hc ▸ hok
      · exact ih [x] x.nodeCount (by simp [Stmt.nodeCountList]) (by simp [chunkOk, chunkOkGo])
          (by simp) c hc
    · simp [greedyGo, h] at hc
      refine ih (cur ++ [x]) (n + x.nodeCount)
        (by rw [nodeCountList_append, hn]; simp [Stmt.nodeCountList]) ?_ (by simp) c hc
      match cur, hne with
      | y :: rest, _ =>
        show chunkOkGo T y.nodeCount (rest ++ [x])
        rw [chunkOkGo_append]
        refine ⟨hok, ?_⟩
        have hn' : n = y.nodeCount + Stmt.nodeCountList rest := by
          simpa [Stmt.nodeCountList] using hn
        omega

theorem greedyGo_head (T : Nat) :
    ∀ (xs cur : List Stmt) (n : Nat), ∃ d rest, greedyGo T cur n xs = (cur ++ d) :: rest := by
  intro xs
  induction xs with
  | nil => intro cur n; exact ⟨[], [], by simp [greedyGo]⟩
  | cons x xs ih =>
    intro cur n
    by_cases h : n + x.nodeCount > T
    · exact ⟨[], greedyGo T [x] x.nodeCount xs, by simp [greedyGo, h]⟩
    · obtain ⟨d, rest, hd⟩ := ih (cur ++ [x]) (n + x.nodeCount)
      exact ⟨x :: d, rest, by simp [greedyGo, h, hd]⟩

theorem greedyGo_bounds (T : Nat) :
    ∀ (xs cur : List Stmt) (n : Nat), n = Stmt.nodeCountList cur →
      boundariesOk T (greedyGo T cur n xs) := by
  intro xs
  induction xs with
  | nil => intro cur n _; simp [greedyGo, boundariesOk, boundsGo]
  | cons x xs ih =>
    intro cur n hn
    by_cases h : n + x.nodeCount > T
    · have hrec := ih [x] x.nodeCount (by simp [Stmt.nodeCountList])
      obtain ⟨d, rest, hd⟩ := greedyGo_head T xs [x] x.nodeCount
      simp only [greedyGo, h, if_pos]
      show boundsGo T (Stmt.nodeCountList cur) (greedyGo T [x] x.nodeCount xs)
      rw [hd]
      rw [hd] at hrec
      refine ⟨⟨x, d, by simp, by omega⟩, ?_⟩
      simpa [boundariesOk] using hrec
    · simp only [greedyGo, h, if_neg, not_false_iff]
      exact ih (cur ++ [x]) (n + x.nodeCount)
        (by rw [nodeCountList_append, hn]; simp [Stmt.nodeCountList])

theorem chunkFuncs_stmts (name : String) (slow : Bool) :
    ∀ (cs : List (List Stmt)) (i : Nat), (chunkFuncs name slow i cs).map CFunc.stmts = cs := by
  intro cs
  induction cs with
  | nil => intro i; rfl
  | cons c rest ih => intro i; simp [chunkFuncs, ih]

theorem chunkFuncs_slow (name : String) (slow : Bool) :
    ∀ (cs : List (List Stmt)) (i : Nat), ∀ g ∈ chunkFuncs name slow i cs, g.slow = slow := by
  intro cs
  induction cs with
  | nil => intro i g hg; simp [chunkFuncs] at hg
  | cons c rest ih =>
    intro i g hg
    simp [chunkFuncs] at hg
    rcases hg with hg | hg
    · rw [hg]
    · exact ih (i + 1) g hg

theorem chunkFuncs_getElem (name : String) (slow : Bool) :
    ∀ (cs : List (List Stmt)) (i j : Nat) (r : CFunc),
      (chunkFuncs name slow i cs)[j]? = some r → r.name = name ++ "__" ++ toString (i + j) := by
  intro cs
  induction cs with
  | nil => intro i j r hr; simp [chunkFuncs] at hr
  | cons c rest ih =>
    intro i j r hr
    cases j with
    | zero => simp [chunkFuncs] at hr; simp [← hr]
    | succ j' =>
      simp only [chunkFuncs, List.getElem?_cons_succ] at hr
      have harith : i + 1 + j' = i + (j' + 1) := by omega
      have := ih (i + 1) j' r hr
      rw [this, harith]

theorem splitFold_bridge (T : Nat) (name : String) (slow : Bool) :
    ∀ (xs : List Stmt) (subs : List CFunc) (calls : List Stmt) (f : CFunc),
      f.slow = slow →
      f.name = name ++ "__" ++ toString subs.length →
      calls = (subs ++ [f]).map (fun g => Stmt.ccall g.name) →
      ((xs.foldl (splitStep T name slow)
          { funcnum := subs.length + 1, funcStmts := Stmt.nodeCountList f.stmts,
            cur := some f, subs := subs, calls := calls }).subs
        ++ curList (xs.foldl (splitStep T name slow)
            { funcnum := subs.length + 1, funcStmts := Stmt.nodeCountList f.stmts,
              cur := some f, subs := subs, calls := calls }).cur
          = subs ++ chunkFuncs name slow subs.length
              (greedyGo T f.stmts (Stmt.nodeCountList f.stmts) xs)) ∧
      (xs.foldl (splitStep T name slow)
          { funcnum := subs.length + 1, funcStmts := Stmt.nodeCountList f.stmts,
            cur := some f, subs := subs, calls := calls }).calls
        = ((xs.foldl (splitStep T name slow)
            { funcnum := subs.length + 1, funcStmts := Stmt.nodeCountList f.stmts,
              cur := some f, subs := subs, calls := calls }).subs
          ++ curList (xs.foldl (splitStep T name slow)
              { funcnum := subs.length + 1, funcStmts := Stmt.nodeCountList f.stmts,
                cur := some f, subs := subs, calls := calls }).cur).map
            (fun g => Stmt.ccall g.name) := by
  intro xs
  induction xs with
  | nil =>
    intro subs calls f hslow hname hcalls
    obtain ⟨fn, fs, fst⟩ := f
    simp only [List.foldl_nil, curList]
    constructor
    · simp only [greedyGo, chunkFuncs]
      simp at hslow hname
      rw [hslow, hname]
    · exact hcalls
  | cons x xs ih =>
    intro subs calls f hslow hname hcalls
    by_cases h : Stmt.nodeCountList f.stmts + x.nodeCount > T
    · have hstep : splitStep T name slow
          { funcnum := subs.length + 1, funcStmts := Stmt.nodeCountList f.stmts,
            cur := some f, subs := subs, calls := calls } x
          = { funcnum := subs.length + 2, funcStmts := Stmt.nodeCountList [x],
              cur := some { name := name ++ "__" ++ toString (subs.length + 1),
                            slow := slow, stmts := [x] },
              subs := subs ++ [f],
              calls := calls ++ [.ccall (name ++ "__" ++ toString (subs.length + 1))] } := by
        simp [splitStep, h, Stmt.nodeCountList, curList]
      have hrec := ih (subs ++ [f])
        (calls ++ [.ccall (name ++ "__" ++ toString (subs.length + 1))])
        { name := name ++ "__" ++ toString (subs.length + 1), slow := slow, stmts := [x] }
        rfl (by simp) (by simp [hcalls])
      simp only [List.foldl_cons, hstep]
      simp only [List.length_append, List.length_singleton] at hrec
      refine ⟨?_, hrec.2⟩
      rw [hrec.1]
      have hg : greedyGo T f.stmts (Stmt.nodeCountList f.stmts) (x :: xs)
          = f.stmts :: greedyGo T [x] x.nodeCount xs := by
        simp [greedyGo, h]
      rw [hg]
      have hcf : chunkFuncs name slow subs.length (f.stmts :: greedyGo T [x] x.nodeCount xs)
          = f :: chunkFuncs name slow (subs.length + 1) (greedyGo T [x] x.nodeCount xs) := by
        simp only [chunkFuncs]
        congr 1
        obtain ⟨fn, fs, fst⟩ := f
        simp at hslow hname
        rw [hslow, hname]
      rw [hcf]
      have hnc : Stmt.nodeCountList [x] = x.nodeCount := by simp [Stmt.nodeCountList]
      rw [hnc]
      simp
    · have hstep : splitStep T name slow
          { funcnum := subs.length + 1, funcStmts := Stmt.nodeCountList f.stmts,
            cur := some f, subs := subs, calls := calls } x
          = { funcnum := subs.length + 1,
              funcStmts := Stmt.nodeCountList (f.stmts ++ [x]),
              cur := some { f with stmts := f.stmts ++ [x] },
              subs := subs, calls := calls } := by
        simp [splitStep, h, nodeCountList_append, Stmt.nodeCountList, curList]
      have hrec := ih subs calls { f with stmts := f.stmts ++ [x] }
        hslow hname (by simpa using hcalls)
      simp only [List.foldl_cons, hstep]
      refine ⟨?_, hrec.2⟩
      rw [hrec.1]
      have hg : greedyGo T f.stmts (Stmt.nodeCountList f.stmts) (x :: xs)
          = greedyGo T (f.stmts ++ [x]) (Stmt.nodeCountList (f.stmts ++ [x])) xs := by
        rw [nodeCountList_append]
        simp only [greedyGo, h, if_neg, not_false_iff]
        rfl
      rw [hg]

theorem splitCheck_noop (T : Nat) (g : CFunc) (h : T = 0 ∨ g.nodeCount < T) :
    splitCheck T g = (g, []) := by
  rcases h with h | h
  · simp [splitCheck, h]
  · unfold splitCheck
    by_cases h0 : T = 0
    · simp [h0]
    · by_cases he : g.stmts.isEmpty <;> simp [h0, he, h]

theorem splitCheck_split (T : Nat) (f : CFunc) (x : Stmt) (xs : List Stmt)
    (hT : T ≠ 0) (hle : T ≤ f.nodeCount) (hstmts : f.stmts = x :: xs) :
    splitCheck T f
      = ({ f with stmts := ((chunkFuncs f.name f.slow 0 (greedyChunks T (x :: xs))).map
            (fun g => Stmt.ccall g.name) : List Stmt) },
         chunkFuncs f.name f.slow 0 (greedyChunks T (x :: xs))) := by
  have hne : ¬(f.nodeCount < T) := by omega
  have hstep1 : splitStep T f.name f.slow
      { funcnum := 0, funcStmts := 0, cur := none, subs := [], calls := [] } x
      = { funcnum := 1, funcStmts := Stmt.nodeCountList [x],
          cur := some { name := f.name ++ "__" ++ toString 0, slow := f.slow, stmts := [x] },
          subs := [], calls := [.ccall (f.name ++ "__" ++ toString 0)] } := by
    simp [splitStep, Stmt.nodeCountList, curList]
  have hbr := splitFold_bridge T f.name f.slow xs []
    [.ccall (f.name ++ "__" ++ toString 0)]
    { name := f.name ++ "__" ++ toString 0, slow := f.slow, stmts := [x] }
    rfl rfl (by simp)
  simp only [List.length_nil, List.nil_append] at hbr
  unfold splitCheck
  rw [if_neg (by simp [hT, hstmts]), if_neg hne]
  rw [hstmts, List.foldl_cons, hstep1]
  have hgc : greedyChunks T (x :: xs) = greedyGo T [x] (Stmt.nodeCountList [x]) xs := rfl
  rw [hgc]
  rw [Prod.mk.injEq]
  constructor
  · rw [hbr.2, hbr.1]
  · exact hbr.1

/-- C8: `splitCheck(f)` leaves `f` unchanged when the output-split
configuration is 0 or `f.nodeCount()` is below the threshold; otherwise it
partitions `f`'s statement list greedily into sub-functions (a new one is
started exactly when adding the next statement would push the cumulative
node count past the threshold), each inheriting `f`'s `slow` flag and named
`<f>__<i>`, called in original statement order from `f`, which afterwards
contains only the calls. -/
theorem c8_splitCheck (T : Nat) (f : CFunc) :
    ((T = 0 ∨ f.nodeCount < T) → splitCheck T f = (f, [])) ∧
    (T ≠ 0 → T ≤ f.nodeCount →
      (splitCheck T f).2 = chunkFuncs f.name f.slow 0 (greedyChunks T f.stmts) ∧
      (splitCheck T f).1.stmts = (splitCheck T f).2.map (fun g => Stmt.ccall g.name) ∧
      (splitCheck T f).1.name = f.name ∧
      (splitCheck T f).1.slow = f.slow ∧
      ((splitCheck T f).2.map CFunc.stmts).flatten = f.stmts ∧
      (∀ g ∈ (splitCheck T f).2, g.slow = f.slow) ∧
      (∀ (j : Nat) (r : CFunc), ((splitCheck T f).2)[j]? = some r → r.name = f.name ++ "__" ++ toString j) ∧
      (∀ c ∈ (splitCheck T f).2.map CFunc.stmts, c ≠ [] ∧ chunkOk T c) ∧
      boundariesOk T ((splitCheck T f).2.map CFunc.stmts)) := by
  refine ⟨splitCheck_noop T f, ?_⟩
  intro hT hle
  rcases hstmts : f.stmts with _ | ⟨x, xs⟩
  · have hsc : splitCheck T f = (f, []) := by
      unfold splitCheck
      simp [hstmts]
    rw [hsc]
    simp [hstmts, greedyChunks, chunkFuncs, boundariesOk]
  · rw [splitCheck_split T f x xs hT hle hstmts]
    have hmapst : (chunkFuncs f.name f.slow 0 (greedyChunks T (x :: xs))).map CFunc.stmts
        = greedyChunks T (x :: xs) := chunkFuncs_stmts f.name f.slow _ 0
    have hgc : greedyChunks T (x :: xs) = greedyGo T [x] x.nodeCount xs := rfl
    refine ⟨rfl, rfl, rfl, rfl, ?_, ?_, ?_, ?_, ?_⟩
    · rw [hmapst, hgc, greedyGo_join]
      exact (List.singleton_append).symm ▸ rfl
    · exact fun g hg => chunkFuncs_slow f.name f.slow _ 0 g hg
    · intro j r hr
      have := chunkFuncs_getElem f.name f.slow _ 0 j r hr
      simpa using this
    · intro c hc
      rw [hmapst, hgc] at hc
      exact ⟨greedyGo_ne_nil T xs [x] x.nodeCount (by simp) c hc,
        greedyGo_chunkOk T xs [x] x.nodeCount (by simp [Stmt.nodeCountList])
          (by simp [chunkOk, chunkOkGo]) (by simp) c hc⟩
    · rw [hmapst, hgc]
      exact greedyGo_bounds T xs [x] x.nodeCount (by simp [Stmt.nodeCountList])

/-- Closed witness for C8 at a concrete function and threshold. -/
theorem c8_splitCheck_witness :
    splitCheck 0 cf9 = (cf9, []) ∧
    ((splitCheck 3 cf9).2.map CFunc.stmts).flatten = cf9.stmts :=
  ⟨(c8_splitCheck 0 cf9).1 (Or.inl rfl),
   ((c8_splitCheck 3 cf9).2 (by decide) (by decide)).2.2.2.2.1⟩

/-- C9 counterexample: `splitCheck` is not idempotent.  With threshold 3
and a function of five 3-node statements, the first run leaves 5 calls in
the function (node count 6 ≥ 3), so the second run splits again, leaving 2
calls: the IR after two runs differs from the IR after one. -/
theorem c9_counterexample :
    (splitCheck 3 (splitCheck 3 cf9).1).1 ≠ (splitCheck 3 cf9).1 := by
  intro h
  have h2 : (splitCheck 3 (splitCheck 3 cf9).1).1.stmts.length = 2 := rfl
  have h5 : (splitCheck 3 cf9).1.stmts.length = 5 := rfl
  rw [h] at h2
  exact absurd (h5.symm.trans h2) (by decide)

/-- C9 amended: for every function `f` and non-zero output-split
configuration, running `splitCheck` a second time leaves the once-split
function unchanged (and creates nothing) provided the once-split
function's node count is below the threshold; without that proviso the
second run may re-split the call statements. -/
theorem c9_amended (T : Nat) (f : CFunc) (h : (splitCheck T f).1.nodeCount < T) :
    splitCheck T ((splitCheck T f).1) = ((splitCheck T f).1, []) :=
  splitCheck_noop T _ (Or.inr h)

/-- Closed witness for the amended C9. -/
theorem c9_amended_witness :
    splitCheck 100 ((splitCheck 100 cf9).1) = ((splitCheck 100 cf9).1, []) :=
  c9_amended 100 cf9 (by decide)

/-! ### C4: `createTerm` translation table and `build` -/

theorem orFold_cons (acc : Option Expr) (t : Expr) (es : List Expr) :
    orFold acc (t :: es)
      = orFold (some (match acc with | none => t | some r => .orOp r t)) es := by
  cases acc <;> rfl

theorem buildGo_spec (cfg : Config) :
    ∀ (items : List SenItem) (st : SEB) (acc : Option Expr) (fired : Bool),
      (∀ i ∈ items, legalItemB cfg i = true) →
      ∃ es stF, termSeq cfg st items = some (es, stF) ∧
        SEB.buildGo cfg items st acc fired
          = some ((orFold acc es,
              fired || items.any (fun i => i.edge == .ET_CHANGED || i.edge == .ET_HYBRID)),
            stF) := by
  intro items
  induction items with
  | nil =>
    intro st acc fired _
    exact ⟨[], st, rfl, by simp [SEB.buildGo, orFold]⟩
  | cons i rest ih =>
    intro st acc fired hleg
    have hlegi := hleg i (by simp)
    have hlegr : ∀ j ∈ rest, legalItemB cfg j = true := fun j hj => hleg j (by simp [hj])
    cases hedge : i.edge
    case ET_ILLEGAL =>
      obtain ⟨es, stF, hts, hbg⟩ := ih st acc fired hlegr
      refine ⟨es, stF, ?_, ?_⟩
      · simp [termSeq, SEB.createTerm, hedge, hts]
      · simp only [SEB.buildGo, SEB.createTerm, hedge]
        rw [hbg]
        simp only [List.any_cons, hedge]
        cases fired <;> rfl
    case ET_CHANGED =>
      obtain ⟨es, stF, hts, hbg⟩ := ih (st.getPrev i.sens).2
        (some (match acc with
          | none => .neq (.senExpr i.sens) (.varref (st.getPrev i.sens).1)
          | some r => .orOp r (.neq (.senExpr i.sens) (.varref (st.getPrev i.sens).1))))
        (fired || true) hlegr
      refine ⟨.neq (.senExpr i.sens) (.varref (st.getPrev i.sens).1) :: es, stF, ?_, ?_⟩
      · simp [termSeq, SEB.createTerm, hedge, hts]
      · rw [orFold_cons]
        simp only [SEB.buildGo, SEB.createTerm, hedge]
        rw [hbg]
        simp only [List.any_cons, hedge]
        cases fired <;> rfl
    case ET_HYBRID =>
      obtain ⟨es, stF, hts, hbg⟩ := ih (st.getPrev i.sens).2
        (some (match acc with
          | none => .neq (.senExpr i.sens) (.varref (st.getPrev i.sens).1)
          | some r => .orOp r (.neq (.senExpr i.sens) (.varref (st.getPrev i.sens).1))))
        (fired || true) hlegr
      refine ⟨.neq (.senExpr i.sens) (.varref (st.getPrev i.sens).1) :: es, stF, ?_, ?_⟩
      · simp [termSeq, SEB.createTerm, hedge, hts]
      · rw [orFold_cons]
        simp only [SEB.buildGo, SEB.createTerm, hedge]
        rw [hbg]
        simp only [List.any_cons, hedge]
        cases fired <;> rfl
    case ET_BOTHEDGE =>
      obtain ⟨es, stF, hts, hbg⟩ := ih (st.getPrev i.sens).2
        (some (match acc with
          | none => .sel (.xorOp (.senExpr i.sens) (.varref (st.getPrev i.sens).1)) 0 1
          | some r => .orOp r (.sel (.xorOp (.senExpr i.sens) (.varref (st.getPrev i.sens).1)) 0 1)))
        (fired || false) hlegr
      refine ⟨.sel (.xorOp (.senExpr i.sens) (.varref (st.getPrev i.sens).1)) 0 1 :: es, stF, ?_, ?_⟩
      · simp [termSeq, SEB.createTerm, hedge, hts]
      · rw [orFold_cons]
        simp only [SEB.buildGo, SEB.createTerm, hedge]
        rw [hbg]
        simp only [List.any_cons, hedge]
        cases fired <;> rfl
    case ET_POSEDGE =>
      obtain ⟨es, stF, hts, hbg⟩ := ih (st.getPrev i.sens).2
        (some (match acc with
          | none => .sel (.andOp (.senExpr i.sens) (.notOp (.varref (st.getPrev i.sens).1))) 0 1
          | some r =>
            .orOp r (.sel (.andOp (.senExpr i.sens) (.notOp (.varref (st.getPrev i.sens).1))) 0 1)))
        (fired || false) hlegr
      refine ⟨.sel (.andOp (.senExpr i.sens) (.notOp (.varref (st.getPrev i.sens).1))) 0 1 :: es,
        stF, ?_, ?_⟩
      · simp [termSeq, SEB.createTerm, hedge, hts]
      · rw [orFold_cons]
        simp only [SEB.buildGo, SEB.createTerm, hedge]
        rw [hbg]
        simp only [List.any_cons, hedge]
        cases fired <;> rfl
    case ET_NEGEDGE =>
      obtain ⟨es, stF, hts, hbg⟩ := ih (st.getPrev i.sens).2
        (some (match acc with
          | none => .sel (.andOp (.notOp (.senExpr i.sens)) (.varref (st.getPrev i.sens).1)) 0 1
          | some r =>
            .orOp r (.sel (.andOp (.notOp (.senExpr i.sens)) (.varref (st.getPrev i.sens).1)) 0 1)))
        (fired || false) hlegr
      refine ⟨.sel (.andOp (.notOp (.senExpr i.sens)) (.varref (st.getPrev i.sens).1)) 0 1 :: es,
        stF, ?_, ?_⟩
      · simp [termSeq, SEB.createTerm, hedge, hts]
      · rw [orFold_cons]
        simp only [SEB.buildGo, SEB.createTerm, hedge]
        rw [hbg]
        simp only [List.any_cons, hedge]
        cases fired <;> rfl
    case ET_EVENT =>
      have hev : cfg.hasEvents = true := by
        simpa [legalItemB, hedge] using hlegi
      obtain ⟨es, stF, hts, hbg⟩ := ih
        { st with updates := st.updates ++
            [.ifS (.isFired i.sens) [.clearFired i.sens, .enqueueClear i.sens] []] }
        (some (match acc with
          | none => .isFired i.sens
          | some r => .orOp r (.isFired i.sens)))
        (fired || false) hlegr
      refine ⟨.isFired i.sens :: es, stF, ?_, ?_⟩
      · simp [termSeq, SEB.createTerm, hedge, hev, hts]
      · rw [orFold_cons]
        simp only [SEB.buildGo, SEB.createTerm, hedge, hev, if_pos]
        rw [hbg]
        simp only [List.any_cons, hedge]
        cases fired <;> rfl
    case ET_TRUE =>
      exact absurd hlegi (by simp [legalItemB, hedge])

/-- C4: `SenExprBuilder::createTerm` translates changed/hybrid to
`curr != prev`, both-edge to `(curr xor prev)[0]`, posedge to
`(curr and not prev)[0]`, negedge to `(not curr and prev)[0]`, and illegal
to a null term (contributing nothing); and `build` on a SenTree returns
the OR-fold of the non-null per-item expressions together with a
first-eval flag that is true exactly when at least one item is of kind
changed or hybrid. -/
theorem c4_createTerm_build (cfg : Config) :
    (∀ (st : SEB) (e : SenExpr),
      SEB.createTerm cfg st { edge := .ET_CHANGED, sens := e }
        = some ((some (.neq (.senExpr e) (.varref (st.getPrev e).1)), true), (st.getPrev e).2) ∧
      SEB.createTerm cfg st { edge := .ET_HYBRID, sens := e }
        = some ((some (.neq (.senExpr e) (.varref (st.getPrev e).1)), true), (st.getPrev e).2) ∧
      SEB.createTerm cfg st { edge := .ET_BOTHEDGE, sens := e }
        = some ((some (.sel (.xorOp (.senExpr e) (.varref (st.getPrev e).1)) 0 1), false),
            (st.getPrev e).2) ∧
      SEB.createTerm cfg st { edge := .ET_POSEDGE, sens := e }
        = some ((some (.sel (.andOp (.senExpr e) (.notOp (.varref (st.getPrev e).1))) 0 1), false),
            (st.getPrev e).2) ∧
      SEB.createTerm cfg st { edge := .ET_NEGEDGE, sens := e }
        = some ((some (.sel (.andOp (.notOp (.senExpr e)) (.varref (st.getPrev e).1)) 0 1), false),
            (st.getPrev e).2) ∧
      SEB.createTerm cfg st { edge := .ET_ILLEGAL, sens := e } = some ((none, false), st)) ∧
    (∀ (st : SEB) (t : SenTree),
      (∀ i ∈ t.itemsAll, legalItemB cfg i = true) →
      ∃ es stF, termSeq cfg st t.itemsAll = some (es, stF) ∧
        SEB.build cfg st t
          = some ((orFold none es,
              t.itemsAll.any (fun i => i.edge == .ET_CHANGED || i.edge == .ET_HYBRID)), stF)) := by
  constructor
  · exact fun st e => ⟨rfl, rfl, rfl, rfl, rfl, rfl⟩
  · intro st t hleg
    obtain ⟨es, stF, hts, hbg⟩ := buildGo_spec cfg t.itemsAll st none false hleg
    exact ⟨es, stF, hts, by simpa using hbg⟩

/-- Closed witness for C4 on a two-item clocked SenTree. -/
theorem c4_witness :
    ∃ es stF, termSeq {} ({} : SEB) tClk2.itemsAll = some (es, stF) ∧
      SEB.build {} ({} : SEB) tClk2
        = some ((orFold none es,
            tClk2.itemsAll.any (fun i => i.edge == .ET_CHANGED || i.edge == .ET_HYBRID)), stF) :=
  (c4_createTerm_build {}).2 {} tClk2 (by decide)

/-! ### C3: SenExprBuilder shadow-variable and update invariants -/

theorem lookupPrev_eq_none (m : List (SenExpr × String)) (e : SenExpr) :
    lookupPrev m e = none ↔ e ∉ m.map Prod.fst := by
  induction m with
  | nil => simp [lookupPrev]
  | cons p rest ih =>
    obtain ⟨k, v⟩ := p
    by_cases h : k = e
    · simp [lookupPrev, h]
    · simp [lookupPrev, h, ih, Ne.symm h]

theorem filter_shadow_self (e : SenExpr) (name : String) :
    isShadowStmtFor e (.assign (.varref name) (.senExpr e)) = true := by
  simp [isShadowStmtFor]

theorem filter_shadow_other (e e' : SenExpr) (name : String) (h : e ≠ e') :
    isShadowStmtFor e' (.assign (.varref name) (.senExpr e)) = false := by
  simp [isShadowStmtFor, h]

theorem SEBInv_addUpdate (st : SEB) (e : SenExpr) (name : String)
    (h : SEBInv st) (hu : e ∉ st.hasUpdate) :
    SEBInv { st with hasUpdate := e :: st.hasUpdate,
                     updates := st.updates ++ [.assign (.varref name) (.senExpr e)] } := by
  obtain ⟨h1, h2, h3⟩ := h
  refine ⟨h1, h2, ?_⟩
  intro e'
  by_cases he : e = e'
  · subst he
    simp [List.filter_append, filter_shadow_self, h3 e, hu]
  · simp [List.filter_append, filter_shadow_other e e' name he, h3 e', Ne.symm he]

theorem SEBInv_create (st : SEB) (e : SenExpr) (name : String) (cnt : Nat)
    (h : SEBInv st) (hnotin : e ∉ st.prev.map Prod.fst) :
    SEBInv { st with prev := (e, name) :: st.prev, uniqueCnt := cnt,
                     initStmts := st.initStmts ++ [.assign (.varref name) (.senExpr e)] } := by
  obtain ⟨h1, h2, h3⟩ := h
  refine ⟨by simp [h1, hnotin], ?_, h3⟩
  intro e'
  by_cases he : e = e'
  · subst he
    simp [List.filter_append, filter_shadow_self, h2 e, hnotin]
  · have he' : e' ≠ e := Ne.symm he
    simp only [List.map_cons]
    rw [List.filter_append, List.length_append]
    have hz : ([Stmt.assign (.varref name) (.senExpr e)].filter (isShadowStmtFor e')).length
        = 0 := by
      simp [filter_shadow_other e e' name he]
    rw [hz, Nat.add_zero, h2 e']
    by_cases hm : e' ∈ List.map Prod.fst st.prev
    · rw [if_pos hm, if_pos (List.mem_cons_of_mem _ hm)]
    · rw [if_neg hm, if_neg (by simp [he', hm])]

theorem SEBInv_getPrev (st : SEB) (e : SenExpr) (h : SEBInv st) :
    SEBInv (st.getPrev e).2 := by
  cases hl : lookupPrev st.prev e with
  | some n =>
    by_cases hu : e ∈ st.hasUpdate
    · simpa [SEB.getPrev, hl, hu] using h
    · have := SEBInv_addUpdate st e n h hu
      simpa [SEB.getPrev, hl, hu] using this
  | none =>
    have hnotin : e ∉ st.prev.map Prod.fst := (lookupPrev_eq_none _ _).mp hl
    have hc := SEBInv_create st e (prevName st.uniqueCnt e).1 (prevName st.uniqueCnt e).2
      h hnotin
    by_cases hu : e ∈ st.hasUpdate
    · simpa [SEB.getPrev, hl, hu] using hc
    · have := SEBInv_addUpdate _ e (prevName st.uniqueCnt e).1 hc (by simpa using hu)
      simpa [SEB.getPrev, hl, hu] using this

theorem SEBInv_addEventUpdate (st : SEB) (e : SenExpr) (h : SEBInv st) :
    SEBInv { st with updates := st.updates ++
        [.ifS (.isFired e) [.clearFired e, .enqueueClear e] []] } := by
  obtain ⟨h1, h2, h3⟩ := h
  refine ⟨h1, h2, ?_⟩
  intro e'
  simp [List.filter_append, isShadowStmtFor, h3 e']

theorem SEBInv_createTerm (cfg : Config) (st : SEB) (i : SenItem) (h : SEBInv st) :
    ∀ r st', SEB.createTerm cfg st i = some (r, st') → SEBInv st' := by
  intro r st' heq
  cases hedge : i.edge
  case ET_ILLEGAL =>
    simp [SEB.createTerm, hedge] at heq
    exact heq.2 ▸ h
  case ET_CHANGED =>
    simp [SEB.createTerm, hedge] at heq
    exact heq.2 ▸ SEBInv_getPrev st i.sens h
  case ET_HYBRID =>
    simp [SEB.createTerm, hedge] at heq
    exact heq.2 ▸ SEBInv_getPrev st i.sens h
  case ET_BOTHEDGE =>
    simp [SEB.createTerm, hedge] at heq
    exact heq.2 ▸ SEBInv_getPrev st i.sens h
  case ET_POSEDGE =>
    simp [SEB.createTerm, hedge] at heq
    exact heq.2 ▸ SEBInv_getPrev st i.sens h
  case ET_NEGEDGE =>
    simp [SEB.createTerm, hedge] at heq
    exact heq.2 ▸ SEBInv_getPrev st i.sens h
  case ET_EVENT =>
    by_cases hev : cfg.hasEvents
    · simp [SEB.createTerm, hedge, hev] at heq
      exact heq.2 ▸ SEBInv_addEventUpdate st i.sens h
    · simp [SEB.createTerm, hedge, hev] at heq
  case ET_TRUE =>
    simp [SEB.createTerm, hedge] at heq

theorem SEBInv_buildGo (cfg : Config) :
    ∀ (items : List SenItem) (st : SEB) (acc : Option Expr) (fired : Bool)
      (r : Option Expr × Bool) (st' : SEB),
      SEB.buildGo cfg items st acc fired = some (r, st') → SEBInv st → SEBInv st' := by
  intro items
  induction items with
  | nil =>
    intro st acc fired r st' heq h
    simp [SEB.buildGo] at heq
    exact heq.2 ▸ h
  | cons i rest ih =>
    intro st acc fired r st' heq h
    simp only [SEB.buildGo] at heq
    cases hct : SEB.createTerm cfg st i with
    | none => rw [hct] at heq; simp at heq
    | some p =>
      rw [hct] at heq
      obtain ⟨⟨termo, f⟩, st1⟩ := p
      have h1 : SEBInv st1 := SEBInv_createTerm cfg st i h _ _ hct
      cases termo
      · exact ih st1 acc fired r st' heq h1
      · exact ih st1 _ _ r st' heq h1

theorem SEBInv_runOp (cfg : Config) (st : SEB) (op : SEBOp) (h : SEBInv st) :
    SEBInv (runOp cfg st op) := by
  cases op with
  | getPrevOp e => exact SEBInv_getPrev st e h
  | termOp i =>
    simp only [runOp]
    cases hct : SEB.createTerm cfg st i with
    | none => exact h
    | some p => exact SEBInv_createTerm cfg st i h p.1 p.2 (by rw [hct])
  | buildOp t =>
    simp only [runOp]
    cases hb : SEB.build cfg st t with
    | none => exact h
    | some p => exact SEBInv_buildGo cfg t.itemsAll st none false p.1 p.2 hb h
  | takeUpdatesOp =>
    obtain ⟨h1, h2, h3⟩ := h
    exact ⟨h1, h2, fun e => by simp [runOp, SEB.getAndClearUpdates]⟩

theorem SEBInv_runTrace (cfg : Config) :
    ∀ (tr : List SEBOp) (st : SEB), SEBInv st → SEBInv (runTrace cfg tr st) := by
  intro tr
  induction tr with
  | nil => exact fun st h => h
  | cons op ops ih => exact fun st h => ih (runOp cfg st op) (SEBInv_runOp cfg st op h)

theorem SEBInv_init : SEBInv {} := by
  refine ⟨by simp, ?_, ?_⟩ <;> intro e <;> simp

theorem runTrace_append_one (cfg : Config) (tr : List SEBOp) (op : SEBOp) :
    ∀ st, runTrace cfg (tr ++ [op]) st = runOp cfg (runTrace cfg tr st) op := by
  induction tr with
  | nil => intro st; rfl
  | cons o os ih => intro st; simp [runTrace, ih]

/-- C3: over every trace of builder operations (`getPrev`, `createTerm`,
`build` calls and `getAndClearUpdates` rounds) starting from a fresh
`SenExprBuilder`, each distinct sensed expression (structural equality)
has at most one shadow 'previous' variable (the `m_prev` keys are pairwise
distinct) and, once seen, exactly one initializer appended to the
initialization function; within one round at most one shadow update
assignment per expression is accumulated; and `getAndClearUpdates` clears
both the accumulator and the per-round dedup set. -/
theorem c3_senExprBuilder_sharing (cfg : Config) (tr : List SEBOp) :
    ((runTrace cfg tr {}).prev.map Prod.fst).Nodup ∧
    (∀ e, e ∈ (runTrace cfg tr {}).prev.map Prod.fst →
      ((runTrace cfg tr {}).initStmts.filter (isShadowStmtFor e)).length = 1) ∧
    (∀ e, e ∉ (runTrace cfg tr {}).prev.map Prod.fst →
      ((runTrace cfg tr {}).initStmts.filter (isShadowStmtFor e)).length = 0) ∧
    (∀ e, ((runTrace cfg tr {}).updates.filter (isShadowStmtFor e)).length ≤ 1) ∧
    (runTrace cfg (tr ++ [.takeUpdatesOp]) {}).updates = [] ∧
    (runTrace cfg (tr ++ [.takeUpdatesOp]) {}).hasUpdate = [] := by
  obtain ⟨h1, h2, h3⟩ := SEBInv_runTrace cfg tr {} SEBInv_init
  refine ⟨h1, ?_, ?_, ?_, ?_, ?_⟩
  · intro e he; simpa [he] using h2 e
  · intro e he; simpa [he] using h2 e
  · intro e
    have h := h3 e
    by_cases hu : e ∈ (runTrace cfg tr {}).hasUpdate
    · rw [if_pos hu] at h; omega
    · rw [if_neg hu] at h; omega
  · rw [runTrace_append_one]; rfl
  · rw [runTrace_append_one]; rfl

/-- Closed witness for C3: an expression seen by two `getPrev` calls in a
row has exactly one initializer. -/
theorem c3_senExprBuilder_sharing_witness :
    ((runTrace {} [SEBOp.getPrevOp (.complex 0), SEBOp.getPrevOp (.complex 0)]
        {}).initStmts.filter (isShadowStmtFor (.complex 0))).length = 1 := by
  have h := c3_senExprBuilder_sharing {}
    [SEBOp.getPrevOp (.complex 0), SEBOp.getPrevOp (.complex 0)]
  exact h.2.1 (.complex 0) (by decide)

/-! ### C2: `createTriggers` width, bit indexing and SenTree map -/

theorem insertKV_notMem (m : List (Nat × SenTree)) (k : Nat) (v : SenTree)
    (h : k ∉ kvKeys m) : insertKV m k v = m ++ [(k, v)] := by
  induction m with
  | nil => rfl
  | cons p rest ih =>
    obtain ⟨k', v'⟩ := p
    simp [kvKeys] at h
    simp [insertKV, Ne.symm h.1, ih (by simp [kvKeys, h.2])]

theorem mapEntries_length (vscp : String) :
    ∀ (ts : List SenTree) (k : Nat), (mapEntries vscp k ts).length = ts.length := by
  intro ts
  induction ts with
  | nil => intro k; rfl
  | cons t rest ih => intro k; simp [mapEntries, ih]

theorem mapEntries_getElem (vscp : String) :
    ∀ (ts : List SenTree) (k i : Nat) (t : SenTree),
      ts[i]? = some t →
      (mapEntries vscp k ts)[i]? = some (t.id, trigSenTree vscp (k + i)) := by
  intro ts
  induction ts with
  | nil => intro k i t h; simp at h
  | cons t0 rest ih =>
    intro k i t h
    cases i with
    | zero => simp at h; simp [mapEntries, h]
    | succ i' =>
      simp only [List.getElem?_cons_succ] at h
      simp only [mapEntries, List.getElem?_cons_succ]
      rw [ih (k + 1) i' t h]
      have : k + 1 + i' = k + (i' + 1) := by omega
      rw [this]

theorem mapEntries_lookup (vscp : String) :
    ∀ (ts : List SenTree) (k i : Nat) (t : SenTree),
      ts[i]? = some t → (ts.map SenTree.id).Nodup →
      lookupKV (mapEntries vscp k ts) t.id = some (trigSenTree vscp (k + i)) := by
  intro ts
  induction ts with
  | nil => intro k i t h _; simp at h
  | cons t0 rest ih =>
    intro k i t h hnd
    simp only [List.map_cons, List.nodup_cons] at hnd
    cases i with
    | zero =>
      simp at h
      subst h
      simp [mapEntries, lookupKV]
    | succ i' =>
      simp only [List.getElem?_cons_succ] at h
      have htmem : t ∈ rest := by
        have := List.getElem?_eq_some.mp h
        obtain ⟨hlt, hget⟩ := this
        exact hget ▸ List.getElem_mem hlt
      have hne : t0.id ≠ t.id := by
        intro hcontra
        exact hnd.1 (hcontra ▸ List.mem_map_of_mem SenTree.id htmem)
      simp only [mapEntries, lookupKV, hne, if_false]
      rw [ih (k + 1) i' t h hnd.2]
      have : k + 1 + i' = k + (i' + 1) := by omega
      rw [this]

theorem trigAssigns_length (vscp : String) :
    ∀ (res : List (Option Expr × Bool)) (k : Nat),
      (trigAssigns vscp k res).length = res.length := by
  intro res
  induction res with
  | nil => intro k; rfl
  | cons r rest ih => intro k; simp [trigAssigns, ih]

theorem trigAssigns_getElem (vscp : String) :
    ∀ (res : List (Option Expr × Bool)) (k i : Nat) (r : Option Expr × Bool),
      res[i]? = some r →
      (trigAssigns vscp k res)[i]?
        = some (.assign (.trigAt vscp (k + i)) (exprOrNull r.1)) := by
  intro res
  induction res with
  | nil => intro k i r h; simp at h
  | cons r0 rest ih =>
    intro k i r h
    cases i with
    | zero => simp at h; simp [trigAssigns, h]
    | succ i' =>
      simp only [List.getElem?_cons_succ] at h
      simp only [trigAssigns, List.getElem?_cons_succ]
      rw [ih (k + 1) i' r h]
      have : k + 1 + i' = k + (i' + 1) := by omega
      rw [this]

theorem buildSeq_length (cfg : Config) :
    ∀ (ts : List SenTree) (st : SEB) (res : List (Option Expr × Bool)) (stF : SEB),
      buildSeq cfg st ts = some (res, stF) → res.length = ts.length := by
  intro ts
  induction ts with
  | nil => intro st res stF h; simp [buildSeq] at h; simp [← h.1]
  | cons t rest ih =>
    intro st res stF h
    simp only [buildSeq] at h
    cases hb : SEB.build cfg st t with
    | none => rw [hb] at h; simp at h
    | some p =>
      rw [hb] at h
      cases hbs : buildSeq cfg p.2 rest with
      | none => simp [hbs] at h
      | some q =>
        simp [hbs] at h
        have := ih p.2 q.1 q.2 (by rw [hbs])
        simp [← h.1, this]

theorem ctGo_spec (cfg : Config) (vscp rname : String) :
    ∀ (ts : List SenTree) (st : SEB) (k : Nat) (map0 : List (Nat × SenTree)),
      (∀ t ∈ ts, (t.hasClocked || t.hasHybrid) = true) →
      (∀ t ∈ ts, ∀ i ∈ t.itemsAll, legalItemB cfg i = true) →
      (∀ t ∈ ts, t.id ∉ kvKeys map0) →
      ((ts.map SenTree.id).Nodup) →
      ∃ res stF inits dumps,
        buildSeq cfg st ts = some (res, stF) ∧
        ctGo cfg vscp rname ts st k map0
          = some (map0 ++ mapEntries vscp k ts, trigAssigns vscp k res, inits, dumps, stF) := by
  intro ts
  induction ts with
  | nil =>
    intro st k map0 _ _ _ _
    exact ⟨[], st, [], [], rfl, by simp [ctGo, mapEntries, trigAssigns]⟩
  | cons t rest ih =>
    intro st k map0 hck hleg hfresh hnd
    simp only [List.map_cons, List.nodup_cons] at hnd
    have hckt := hck t (by simp)
    obtain ⟨es, st1, hts, hbuild⟩ :=
      buildGo_spec cfg t.itemsAll st none false (hleg t (by simp))
    have hbuild' : SEB.build cfg st t
        = some ((orFold none es,
            false || t.itemsAll.any fun i =>
              i.edge == VEdgeType.ET_CHANGED || i.edge == VEdgeType.ET_HYBRID), st1) := hbuild
    obtain ⟨res, stF, inits, dumps, hbs, hct⟩ :=
      ih st1 (k + 1) (map0 ++ [(t.id, trigSenTree vscp k)])
        (fun t' ht' => hck t' (by simp [ht']))
        (fun t' ht' => hleg t' (by simp [ht']))
        (by
          intro t' ht'
          simp only [kvKeys, List.map_append, List.map_cons, List.map_nil]
          intro hmem
          rcases List.mem_append.mp hmem with hmem | hmem
          · exact hfresh t' (by simp [ht']) hmem
          · have : t'.id = t.id := by simpa using hmem
            exact hnd.1 (this ▸ List.mem_map_of_mem SenTree.id ht')
        )
        hnd.2
    refine ⟨(orFold none es,
        false || t.itemsAll.any fun i =>
          i.edge == VEdgeType.ET_CHANGED || i.edge == VEdgeType.ET_HYBRID) :: res,
      stF,
      (if (false || t.itemsAll.any fun i =>
            i.edge == VEdgeType.ET_CHANGED || i.edge == VEdgeType.ET_HYBRID)
          || cfg.xInitialEdge
        then [Stmt.assign (.trigAt vscp k) (.const 1)] else []) ++ inits,
      Stmt.ifS (.trigAt vscp k) [.dbgPrint rname k (some t.id)] [] :: dumps, ?_, ?_⟩
    · simp only [buildSeq, hbuild', hbs]
    · simp only [ctGo, hckt, if_pos]
      rw [insertKV_notMem _ _ _ (hfresh t (by simp))]
      simp only [hbuild', hct]
      simp [mapEntries, trigAssigns, List.append_assoc]

/-- C2: for every `createTriggers(netlist, builder, senTrees, name, extra)`
call (under the source's own preconditions: clocked/hybrid inputs, legal
sensitivity items, pairwise-distinct input trees), the created trigger
vector variable `__V<name>Triggered` has width `extra + |senTrees|`; the
compute function's `i`-th statement assigns bit `extra + i` from the
`i`-th input SenTree's trigger expression (so extras occupy bits
`0..extra-1`); and the returned SenTree map has exactly `|senTrees|`
entries, mapping the `i`-th input SenTree to a synthetic SenTree reading
its own trigger bit `extra + i`. -/
theorem c2_createTriggers (cfg : Config) (st : SEB) (senTreeps : List SenTree)
    (name : String) (extra : Nat) (slow : Bool)
    (hck : ∀ t ∈ senTreeps, (t.hasClocked || t.hasHybrid) = true)
    (hleg : ∀ t ∈ senTreeps, ∀ i ∈ t.itemsAll, legalItemB cfg i = true)
    (hnd : (senTreeps.map SenTree.id).Nodup) :
    ∃ kit st', createTriggers cfg st senTreeps name extra slow = some (kit, st') ∧
      kit.vscp = "__V" ++ name ++ "Triggered" ∧
      kit.width = extra + senTreeps.length ∧
      kit.map.length = senTreeps.length ∧
      ∃ res stF, buildSeq cfg st senTreeps = some (res, stF) ∧
        ∀ (i : Nat) (t : SenTree), senTreeps[i]? = some t →
          kit.map[i]? = some (t.id, trigSenTree kit.vscp (extra + i)) ∧
          lookupKV kit.map t.id = some (trigSenTree kit.vscp (extra + i)) ∧
          ∃ r, res[i]? = some r ∧
            kit.funcStmts[i]? = some (.assign (.trigAt kit.vscp (extra + i)) (exprOrNull r.1)) := by
  obtain ⟨res, stF, inits, dumps, hbs, hct⟩ :=
    ctGo_spec cfg ("__V" ++ name ++ "Triggered") name senTreeps st extra []
      hck hleg (by simp [kvKeys]) hnd
  have hkit : createTriggers cfg st senTreeps name extra slow
      = some ({ vscp := "__V" ++ name ++ "Triggered"
                width := senTreeps.length + extra
                funcName := "_eval_triggers__" ++ name
                funcSlow := slow
                funcStmts := trigAssigns ("__V" ++ name ++ "Triggered") extra res
                  ++ stF.updates
                  ++ (if inits.isEmpty then []
                      else [Stmt.ifS (.notOp (.varref ("__V" ++ name ++ "DidInit")))
                             (setVarS ("__V" ++ name ++ "DidInit") 1 :: inits) []])
                  ++ [.debugDumpCall ("_dump_triggers__" ++ name)]
                dumpName := "_dump_triggers__" ++ name
                dumpStmts := noTrigPrint ("__V" ++ name ++ "Triggered")
                  :: ((List.range extra).map fun i =>
                        Stmt.ifS (.trigAt ("__V" ++ name ++ "Triggered") i)
                          [.dbgPrint name i none] []) ++ dumps
                map := [] ++ mapEntries ("__V" ++ name ++ "Triggered") extra senTreeps
                newVars := ("__V" ++ name ++ "Triggered", senTreeps.length + extra)
                  :: (if inits.isEmpty then [] else [("__V" ++ name ++ "DidInit", 1)]) },
              { stF with hasUpdate := [], updates := [] }) := by
    simp only [createTriggers]
    rw [hct]
    rfl
  refine ⟨_, _, hkit, rfl, ?_, ?_, res, stF, hbs, ?_⟩
  · simp [Nat.add_comm]
  · simp [mapEntries_length]
  · intro i t hit
    have hilt : i < senTreeps.length := (List.getElem?_eq_some.mp hit).1
    have hlen : res.length = senTreeps.length := buildSeq_length cfg senTreeps st res stF hbs
    have hr : res[i]? = some (res.get ⟨i, by omega⟩) :=
      List.getElem?_eq_some.mpr ⟨by omega, rfl⟩
    refine ⟨?_, ?_, res.get ⟨i, by omega⟩, hr, ?_⟩
    · simpa using mapEntries_getElem _ senTreeps extra i t hit
    · simpa using mapEntries_lookup _ senTreeps extra i t hit hnd
    · have hta := trigAssigns_getElem ("__V" ++ name ++ "Triggered") res extra i _ hr
      have hlt1 : i < (trigAssigns ("__V" ++ name ++ "Triggered") extra res).length := by
        rw [trigAssigns_length]; omega
      show ((trigAssigns ("__V" ++ name ++ "Triggered") extra res ++ stF.updates
          ++ _ ++ _) : List Stmt)[i]? = _
      rw [List.append_assoc, List.append_assoc, List.getElem?_append_left hlt1, hta]

/-- Closed witness for C2: two clocked SenTrees with one extra trigger. -/
theorem c2_createTriggers_witness :
    ∃ kit st', createTriggers {} {} [tClk, tClk2] "act" 1 false = some (kit, st') ∧
      kit.vscp = "__V" ++ "act" ++ "Triggered" ∧
      kit.width = 1 + 2 ∧
      kit.map.length = 2 := by
  obtain ⟨kit, st', h1, h2, h3, h4, -⟩ :=
    c2_createTriggers {} {} [tClk, tClk2] "act" 1 false (by decide) (by decide) (by decide)
  exact ⟨kit, st', h1, h2, h3, h4⟩

/-! ### C5: the classifier -/

theorem classifyBlock_eq (t : SenTree) :
    classifyBlock t
      = if chainStatic t then (if t.rest.isEmpty then some .bstatic else none)
        else if chainInitial t then (if t.rest.isEmpty then some .binitial else none)
        else if chainFinal t then (if t.rest.isEmpty then some .bfinal else none)
        else if chainCombo t then (if t.rest.isEmpty then some .bcomb else none)
        else if chainClocked t then some .bclocked
        else none := by
  unfold classifyBlock chainStatic chainInitial chainFinal chainCombo chainClocked
  by_cases h1 : t.hasStatic <;> by_cases h2 : t.hasInitial <;> by_cases h3 : t.hasFinal <;>
    by_cases h4 : t.hasCombo <;> simp [h1, h2, h3, h4]

theorem classifyBlock_chains (t : SenTree) (b : Bucket) (h : classifyBlock t = some b) :
    chainStatic t = decide (b = .bstatic) ∧
    chainInitial t = decide (b = .binitial) ∧
    chainFinal t = decide (b = .bfinal) ∧
    chainCombo t = decide (b = .bcomb) ∧
    chainClocked t = decide (b = .bclocked) := by
  rw [classifyBlock_eq] at h
  unfold chainStatic chainInitial chainFinal chainCombo chainClocked at h ⊢
  by_cases h1 : t.hasStatic <;> by_cases h2 : t.hasInitial <;> by_cases h3 : t.hasFinal <;>
    by_cases h4 : t.hasCombo <;> by_cases h5 : t.hasClocked <;>
    by_cases hr : t.rest.isEmpty <;>
    simp_all <;> cases b <;> simp_all

theorem classifyBlock_singleItem (t : SenTree) (h : (classifyBlock t).isSome) :
    singleItemChain t := by
  rw [classifyBlock_eq] at h
  unfold singleItemChain
  unfold chainStatic chainInitial chainFinal chainCombo at h ⊢
  unfold chainClocked at h
  by_cases h1 : t.hasStatic <;> by_cases h2 : t.hasInitial <;> by_cases h3 : t.hasFinal <;>
    by_cases h4 : t.hasCombo <;> by_cases h5 : t.hasClocked <;>
    by_cases hr : t.rest.isEmpty <;>
    simp_all [List.isEmpty_iff]

theorem gatherBlocks_spec (sid : Nat) (sname : String) :
    ∀ (bs : List ActiveBlock) (acc : LogicClasses) (lc : LogicClasses),
      gatherBlocks sid sname acc bs = some lc →
      lc.m_static = acc.m_static
        ++ (bs.filter (fun b => !b.stmts.isEmpty && chainStatic b.senTree)).map
            (fun b => ⟨sid, sname, b⟩) ∧
      lc.m_initial = acc.m_initial
        ++ (bs.filter (fun b => !b.stmts.isEmpty && chainInitial b.senTree)).map
            (fun b => ⟨sid, sname, b⟩) ∧
      lc.m_final = acc.m_final
        ++ (bs.filter (fun b => !b.stmts.isEmpty && chainFinal b.senTree)).map
            (fun b => ⟨sid, sname, b⟩) ∧
      lc.m_comb = acc.m_comb
        ++ (bs.filter (fun b => !b.stmts.isEmpty && chainCombo b.senTree)).map
            (fun b => ⟨sid, sname, b⟩) ∧
      lc.m_clocked = acc.m_clocked
        ++ (bs.filter (fun b => !b.stmts.isEmpty && chainClocked b.senTree)).map
            (fun b => ⟨sid, sname, b⟩) ∧
      lc.m_hybrid = acc.m_hybrid ∧
      (∀ b ∈ bs, b.stmts.isEmpty = false → (classifyBlock b.senTree).isSome) := by
  intro bs
  induction bs with
  | nil =>
    intro acc lc h
    simp [gatherBlocks] at h
    subst h
    simp
  | cons b bs ih =>
    intro acc lc h
    by_cases he : b.stmts.isEmpty
    · simp only [gatherBlocks, he, if_pos] at h
      have := ih acc lc h
      simp only [List.filter_cons, he, Bool.not_true, Bool.false_and, if_neg,
        Bool.false_eq_true, not_false_iff]
      refine ⟨this.1, this.2.1, this.2.2.1, this.2.2.2.1, this.2.2.2.2.1,
        this.2.2.2.2.2.1, ?_⟩
      intro b' hb' hne
      rcases List.mem_cons.mp hb' with hb' | hb'
      · rw [hb'] at hne; rw [hne] at he; exact absurd he (by simp)
      · exact this.2.2.2.2.2.2 b' hb' hne
    · simp only [gatherBlocks, he, if_neg, not_false_iff] at h
      cases hcb : classifyBlock b.senTree with
      | none => rw [hcb] at h; simp at h
      | some bucket =>
        rw [hcb] at h
        have hchains := classifyBlock_chains b.senTree bucket hcb
        have hne : (!b.stmts.isEmpty) = true := by simp [he]
        have := ih (addToBucket acc bucket ⟨sid, sname, b⟩) lc h
        have hmem : ∀ b' ∈ b :: bs, b'.stmts.isEmpty = false →
            (classifyBlock b'.senTree).isSome := by
          intro b' hb' hne'
          rcases List.mem_cons.mp hb' with hb' | hb'
          · rw [hb', hcb]; rfl
          · exact this.2.2.2.2.2.2 b' hb' hne'
        cases bucket <;>
          simp only [addToBucket] at this <;>
          rcases hchains with ⟨hc1, hc2, hc3, hc4, hc5⟩ <;>
          simp only [decide_eq_true_eq] at hc1 hc2 hc3 hc4 hc5 <;>
          refine ⟨?_, ?_, ?_, ?_, ?_, this.2.2.2.2.2.1, hmem⟩ <;>
          simp [List.filter_cons, hne, hc1, hc2, hc3, hc4, hc5,
            this.1, this.2.1, this.2.2.1, this.2.2.2.1, this.2.2.2.2.1]

theorem gatherScopes_spec :
    ∀ (ss : List Scope) (acc : LogicClasses) (lc : LogicClasses),
      gatherScopes acc ss = some lc →
      lc.m_static = acc.m_static
        ++ (allPairs ss).filter (fun x => !x.activep.stmts.isEmpty && chainStatic x.activep.senTree) ∧
      lc.m_initial = acc.m_initial
        ++ (allPairs ss).filter (fun x => !x.activep.stmts.isEmpty && chainInitial x.activep.senTree) ∧
      lc.m_final = acc.m_final
        ++ (allPairs ss).filter (fun x => !x.activep.stmts.isEmpty && chainFinal x.activep.senTree) ∧
      lc.m_comb = acc.m_comb
        ++ (allPairs ss).filter (fun x => !x.activep.stmts.isEmpty && chainCombo x.activep.senTree) ∧
      lc.m_clocked = acc.m_clocked
        ++ (allPairs ss).filter (fun x => !x.activep.stmts.isEmpty && chainClocked x.activep.senTree) ∧
      lc.m_hybrid = acc.m_hybrid ∧
      (∀ x ∈ allPairs ss, x.activep.stmts.isEmpty = false →
        (classifyBlock x.activep.senTree).isSome) := by
  intro ss
  induction ss with
  | nil =>
    intro acc lc h
    simp [gatherScopes] at h
    subst h
    simp [allPairs]
  | cons s ss ih =>
    intro acc lc h
    simp only [gatherScopes] at h
    cases hgb : gatherBlocks s.id s.name acc s.blocks with
    | none => rw [hgb] at h; simp at h
    | some acc' =>
      rw [hgb] at h
      have hb := gatherBlocks_spec s.id s.name s.blocks acc acc' hgb
      have hs := ih acc' lc h
      have hall : allPairs (s :: ss)
          = (s.blocks.map fun b => ⟨s.id, s.name, b⟩) ++ allPairs ss := by
        simp [allPairs]
      have hfm : ∀ (p : SenTree → Bool),
          ((s.blocks.map fun b => (⟨s.id, s.name, b⟩ : ScopedLogic)).filter
            (fun x => !x.activep.stmts.isEmpty && p x.activep.senTree))
          = (s.blocks.filter (fun b => !b.stmts.isEmpty && p b.senTree)).map
              (fun b => ⟨s.id, s.name, b⟩) := by
        intro p
        rw [List.filter_map]
        rfl
      refine ⟨?_, ?_, ?_, ?_, ?_, ?_, ?_⟩
      · rw [hs.1, hb.1, hall, List.filter_append, hfm, List.append_assoc]
      · rw [hs.2.1, hb.2.1, hall, List.filter_append, hfm, List.append_assoc]
      · rw [hs.2.2.1, hb.2.2.1, hall, List.filter_append, hfm, List.append_assoc]
      · rw [hs.2.2.2.1, hb.2.2.2.1, hall, List.filter_append, hfm, List.append_assoc]
      · rw [hs.2.2.2.2.1, hb.2.2.2.2.1, hall, List.filter_append, hfm, List.append_assoc]
      · rw [hs.2.2.2.2.2.1, hb.2.2.2.2.2.1]
      · intro x hx hne
        rw [hall] at hx
        rcases List.mem_append.mp hx with hx | hx
        · obtain ⟨b, hbmem, hbeq⟩ := List.mem_map.mp hx
          have := hb.2.2.2.2.2.2 b hbmem (by rw [← hbeq] at hne; exact hne)
          rw [← hbeq]
          exact this
        · exact hs.2.2.2.2.2.2 x hx hne

/-- C5: on success, `gatherLogicClasses` places every non-empty active
block into exactly one of the five buckets (classification is total and
mutually exclusive); the chain assertions hold: static/initial/final/combo
SenTrees (as dispatched) have a single SenItem and any tree matching none
of those four classes is clocked (otherwise the internal fatal, modelled
as `none`, is signalled); and every empty active block has been removed
from the scopes before classification finishes. -/
theorem c5_gatherLogicClasses (scopes : List Scope) (lc : LogicClasses) (scopes' : List Scope)
    (h : gatherLogicClasses scopes = some (lc, scopes')) :
    (∀ x ∈ allPairs scopes, x.activep.stmts.isEmpty = false → inExactlyOneBucket lc x) ∧
    (∀ x ∈ allPairs scopes, x.activep.stmts.isEmpty = false →
      singleItemChain x.activep.senTree) ∧
    (∀ s ∈ scopes', ∀ b ∈ s.blocks, b.stmts.isEmpty = false) ∧
    scopes'.length = scopes.length := by
  have hgs : gatherScopes {} scopes = some lc ∧
      scopes' = scopes.map
        (fun s => { s with blocks := s.blocks.filter fun b => !b.stmts.isEmpty }) := by
    unfold gatherLogicClasses at h
    cases hg : gatherScopes {} scopes with
    | none => rw [hg] at h; simp at h
    | some lc0 =>
      rw [hg] at h
      simp at h
      exact ⟨by rw [← h.1], h.2.symm⟩
  obtain ⟨hg, hmap⟩ := hgs
  have hsp := gatherScopes_spec scopes {} lc hg
  refine ⟨?_, ?_, ?_, ?_⟩
  · intro x hx hne
    have hsome := hsp.2.2.2.2.2.2 x hx hne
    obtain ⟨bucket, hb⟩ := Option.isSome_iff_exists.mp hsome
    have hch := classifyBlock_chains _ bucket hb
    have hnb : (!x.activep.stmts.isEmpty) = true := by simp [hne]
    have hS : x ∈ lc.m_static ↔ chainStatic x.activep.senTree = true := by
      rw [hsp.1]; simp [List.mem_filter, hx, hnb]
    have hI : x ∈ lc.m_initial ↔ chainInitial x.activep.senTree = true := by
      rw [hsp.2.1]; simp [List.mem_filter, hx, hnb]
    have hF : x ∈ lc.m_final ↔ chainFinal x.activep.senTree = true := by
      rw [hsp.2.2.1]; simp [List.mem_filter, hx, hnb]
    have hC : x ∈ lc.m_comb ↔ chainCombo x.activep.senTree = true := by
      rw [hsp.2.2.2.1]; simp [List.mem_filter, hx, hnb]
    have hK : x ∈ lc.m_clocked ↔ chainClocked x.activep.senTree = true := by
      rw [hsp.2.2.2.2.1]; simp [List.mem_filter, hx, hnb]
    obtain ⟨hc1, hc2, hc3, hc4, hc5⟩ := hch
    cases bucket
    · exact Or.inl ⟨hS.mpr (by simp [hc1]), fun hm => by simp [hI.mp hm] at hc2,
        fun hm => by simp [hF.mp hm] at hc3, fun hm => by simp [hC.mp hm] at hc4,
        fun hm => by simp [hK.mp hm] at hc5⟩
    · exact Or.inr (Or.inl ⟨fun hm => by simp [hS.mp hm] at hc1, hI.mpr (by simp [hc2]),
        fun hm => by simp [hF.mp hm] at hc3, fun hm => by simp [hC.mp hm] at hc4,
        fun hm => by simp [hK.mp hm] at hc5⟩)
    · exact Or.inr (Or.inr (Or.inl ⟨fun hm => by simp [hS.mp hm] at hc1,
        fun hm => by simp [hI.mp hm] at hc2, hF.mpr (by simp [hc3]),
        fun hm => by simp [hC.mp hm] at hc4, fun hm => by simp [hK.mp hm] at hc5⟩))
    · exact Or.inr (Or.inr (Or.inr (Or.inl ⟨fun hm => by simp [hS.mp hm] at hc1,
        fun hm => by simp [hI.mp hm] at hc2, fun hm => by simp [hF.mp hm] at hc3,
        hC.mpr (by simp [hc4]), fun hm => by simp [hK.mp hm] at hc5⟩)))
    · exact Or.inr (Or.inr (Or.inr (Or.inr ⟨fun hm => by simp [hS.mp hm] at hc1,
        fun hm => by simp [hI.mp hm] at hc2, fun hm => by simp [hF.mp hm] at hc3,
        fun hm => by simp [hC.mp hm] at hc4, hK.mpr (by simp [hc5])⟩)))
  · intro x hx hne
    exact classifyBlock_singleItem _ (hsp.2.2.2.2.2.2 x hx hne)
  · intro s hs b hb
    rw [hmap] at hs
    obtain ⟨s0, hs0, hseq⟩ := List.mem_map.mp hs
    rw [← hseq] at hb
    have := (List.mem_filter.mp hb).2
    simpa using this
  · rw [hmap, List.length_map]

/-- Closed witness for C5 on a concrete scope with clocked, combinational
and empty blocks. -/
theorem c5_gatherLogicClasses_witness :
    ∃ lc scopes', gatherLogicClasses [scope5] = some (lc, scopes') ∧
      (∀ s ∈ scopes', ∀ b ∈ s.blocks, b.stmts.isEmpty = false) ∧
      scopes'.length = 1 := by
  obtain ⟨lc, scopes', heq⟩ :
      ∃ lc scopes', gatherLogicClasses [scope5] = some (lc, scopes') := ⟨_, _, rfl⟩
  have hmain := c5_gatherLogicClasses [scope5] lc scopes' heq
  exact ⟨lc, scopes', heq, hmain.2.2.1, by rw [hmain.2.2.2]; rfl⟩

/-! ### C7: the settle region on an empty design -/

/-- C7 counterexample: for the netlist with one empty top scope (and
contract-respecting instantiations of the external passes), `schedule`
returns a netlist that DOES contain an `_eval_settle` function (with an
empty body): `createSettle` creates and registers the function before its
empty-logic early return, so the function is present, contradicting the
claim that no `_eval_settle` function is present after `schedule`
returns. -/
theorem c7_counterexample :
    (schedule {} trivialOracles emptyNetlist).map
        (fun nl => (nl.funcs.filter fun f => f.name == "_eval_settle").map CFunc.stmts)
      = some [[]] := by
  rfl

/-- C7 amended: if the design has no combinational and no hybrid logic,
`schedule` omits the settle region's contents — `createSettle` creates no
trigger kit, no temp variables and no eval loop, and leaves the builder
untouched — but the `_eval_settle` function itself is still created, with
an empty body, and remains present in the netlist. -/
theorem c7_amended (cfg : Config) (orc : Oracles) (nl : Netlist) (st : SEB)
    (lc : LogicClasses) (hc : lc.m_comb = []) (hh : lc.m_hybrid = []) :
    createSettle cfg orc nl st lc
      = some ({ nl with
          funcs := nl.funcs ++ [{ name := "_eval_settle", slow := true, stmts := [] }] },
        st) := by
  unfold createSettle
  simp [hc, hh]

/-- Closed witness for the amended C7. -/
theorem c7_amended_witness :
    createSettle {} trivialOracles emptyNetlist {} {}
      = some ({ emptyNetlist with
          funcs := emptyNetlist.funcs
            ++ [{ name := "_eval_settle", slow := true, stmts := [] }] },
        ({} : SEB)) :=
  c7_amended {} trivialOracles emptyNetlist {} {} rfl rfl

end VSched
